import Mathlib

/-!
Formal model of the `spaceavocado/svelte-router` route-resolution and
navigation pipeline, shallowly embedded from the repository sources
(`src/utils.ts`, `src/location.ts`, `src/route.js`, `src/router.ts`).

JavaScript strings are modelled as `List Char` (`Str`); JavaScript plain
objects used as string maps are modelled as insertion-ordered association
lists whose values may be `undefined` (`Option Str`).  Fallible functions
return `Except String _`.
-/

set_option maxRecDepth 4000

abbrev Str := List Char

/-- JS string map: insertion-ordered association list; a value of `none`
models an entry holding `undefined`. -/
abbrev QueryMap := List (Str × Option Str)

/-- JS property assignment `m[k] = v`: replaces the value in place when the
key is present, appends the entry otherwise. -/
def objInsert (m : QueryMap) (k : Str) (v : Option Str) : QueryMap :=
  if m.any (fun p => p.1 == k) then m.map (fun p => if p.1 == k then (k, v) else p)
  else m ++ [(k, v)]

/-- JS object spread `{...m, ...src}` / `for (key in src) m[key] = src[key]`. -/
def objAssign (m src : QueryMap) : QueryMap :=
  src.foldl (fun acc p => objInsert acc p.1 p.2) m

/-- JS property read `m[k]`: `none` when the key is absent. -/
def objLookup (m : QueryMap) (k : Str) : Option (Option Str) :=
  (m.find? (fun p => p.1 == k)).map (fun p => p.2)

/-- `hasPrefix` from `src/utils.ts`: string has-prefix predicate. -/
def hasPrefix (s pre : Str) : Bool :=
  if pre.length == 0 || s.length == 0 then false
  else
    if pre.length ≤ s.length then
      if s.take pre.length == pre then true else false
    else false

/-- `hasSuffix` from `src/utils.ts`: string has-suffix predicate. -/
def hasSuffix (s suf : Str) : Bool :=
  if suf.length == 0 || s.length == 0 then false
  else
    if suf.length ≤ s.length then
      if s.drop (s.length - suf.length) == suf then true else false
    else false

/-- `trimPrefix` from `src/utils.ts`. -/
def trimPrefix (s pre : Str) : Str :=
  if pre.length > 0 && hasPrefix s pre then s.drop pre.length else s

/-- `joinPath` from `src/utils.ts`: join URL paths. -/
def joinPath (a b : Str) : Str :=
  let aSlash := hasSuffix a ['/']
  let bSlash := hasPrefix b ['/']
  if aSlash && bSlash then a ++ b.drop 1
  else if !aSlash && !bSlash then a ++ ['/'] ++ b
  else a ++ b

/-- JS `String.prototype.split` on a single separator character
(`"".split(c)` yields `[""]`, every separator occurrence splits). -/
def splitChar (sep : Char) : Str → List Str
  | [] => [[]]
  | c :: cs =>
    match splitChar sep cs with
    | [] => [[]]
    | h :: t => if c = sep then [] :: h :: t else (c :: h) :: t

/-- JS `s.replace(c, '')` for a single-character pattern: removes the first
occurrence only. -/
def replaceFirstChar (sep : Char) (s : Str) : Str :=
  match splitChar sep s with
  | [] => s
  | [x] => x
  | x :: rest => x ++ List.intercalate [sep] rest

/-- Parsed URL object from `src/utils.ts`. -/
structure ParsedURL where
  base : Str
  query : QueryMap
  hash : Str
deriving DecidableEq

/-- Query-string parsing loop inside `parseURL`: split entries on `&`, each
entry on `=`; `keyValue[1]` is `undefined` when the entry has no `=`. -/
def parseQuery (qs : Str) : QueryMap :=
  (splitChar '&' qs).foldl (fun m entry =>
    let keyValue := splitChar '=' entry
    objInsert m (keyValue.headD []) (keyValue.get? 1)) []

/-- `parseURL` from `src/utils.ts`: extract base path, query map and hash;
fails on more than one `#`, or more than one `?` before the first `#`. -/
def parseURL (path : Str) : Except String ParsedURL :=
  let sections := splitChar '#' path
  if sections.length > 2 then .error "invalid URL"
  else
    let path1 := if sections.length == 2 then sections.headD [] else path
    let hash := if sections.length == 2 then sections.getD 1 [] else []
    let sections2 := splitChar '?' path1
    if sections2.length > 2 then .error "invalid URL"
    else
      .ok { base := sections2.headD [],
            query := if sections2.length == 2 then parseQuery (sections2.getD 1 []) else [],
            hash := hash }

/-- JS template interpolation of a possibly-`undefined` value. -/
def optValStr : Option Str → Str
  | some v => v
  | none => "undefined".toList

/-- `fullURL` from `src/utils.ts`: reassemble base path, query map and hash. -/
def fullURL (path : Str) (query : Option QueryMap) (hash : Str) : Str :=
  let path :=
    match query with
    | none => path
    | some q =>
      let queryPath := q.foldl (fun acc p =>
        (if acc.length > 0 then acc ++ ['&'] else acc) ++ p.1 ++ ['='] ++ optValStr p.2) []
      if queryPath.length > 0 then path ++ ['?'] ++ queryPath else path
  if hash.length > 0 then path ++ ['#'] ++ hash else path

/-- History actions from `src/history.js`. -/
inductive HistoryAction where
  | push
  | replace
  | pop
deriving DecidableEq

/-- `RawLocation` from `src/location.ts`: optional fields model absent or
non-string-typed JS properties (the code type-checks each before use). -/
structure RawLocation where
  name : Option Str := none
  path : Option Str := none
  hash : Option Str := none
  query : Option QueryMap := none
  params : Option QueryMap := none
  replace : Bool := false
deriving DecidableEq

/-- `Location` from `src/location.ts`. -/
structure Location where
  name : Option Str := none
  path : Str := []
  hash : Str := []
  query : QueryMap := []
  params : QueryMap := []
  action : HistoryAction := .push
deriving DecidableEq

/-- Leading-slash normalization at the head of `createLocation`. -/
def normalizedPath (p : Str) : Str :=
  if p.length > 0 && !( hasPrefix p ['/']) then '/' :: p else p

/-- `createLocation` from `src/location.ts` (the TypeScript variant, which
short-circuits on an empty path). -/
def createLocation (rawLocation : RawLocation) : Except String Location :=
  let path1 := normalizedPath (rawLocation.path.getD [])
  let action := if rawLocation.replace then HistoryAction.replace else HistoryAction.push
  let hash :=
    match rawLocation.hash with
    | some h => replaceFirstChar '#' h
    | none => []
  let params :=
    match rawLocation.params with
    | some ps => objAssign [] ps
    | none => []
  let query :=
    match rawLocation.query with
    | some qs => objAssign [] qs
    | none => []
  if path1.length == 0 then
    .ok { name := rawLocation.name, path := path1, hash := hash,
          query := query, params := params, action := action }
  else
    match parseURL path1 with
    | .error e => .error ("invalid URL, " ++ e)
    | .ok parsedURL =>
      .ok { name := rawLocation.name, path := parsedURL.base,
            hash := if parsedURL.hash.length > 0 then parsedURL.hash else hash,
            query := objAssign query parsedURL.query,
            params := params, action := action }

/-- Dynamic JS value tags, as discriminated by the `@spaceavocado/type-check`
predicates used in `src/route.js` (payloads irrelevant to the routing logic
are omitted). -/
inductive JSVal where
  | undef
  | null
  | boolean (b : Bool)
  | str (s : Str)
  | num (n : Int)
  | obj
  | func
deriving DecidableEq

def jsIsNullOrUndef : JSVal → Bool
  | .undef | .null => true
  | _ => false

def jsIsString : JSVal → Bool
  | .str _ => true
  | _ => false

def jsIsFunction : JSVal → Bool
  | .func => true
  | _ => false

def jsIsObject : JSVal → Bool
  | .obj => true
  | _ => false

/-- JS truthiness. -/
def jsTruthy : JSVal → Bool
  | .undef | .null => false
  | .boolean b => b
  | .str s => s.length > 0
  | .num n => n != 0
  | .obj | .func => true

/-- JS `a || b`. -/
def jsOr (a b : JSVal) : JSVal := if jsTruthy a then a else b

/-- Projection of a pending `Route` handed to a redirect resolver function
(function-typed route fields are not consulted by resolvers). -/
structure RouteView where
  name : JSVal
  path : Str
  hash : Str
  fullPath : Str
  params : QueryMap
  query : QueryMap
deriving DecidableEq

/-- Value a redirect resolves to: a plain URL string or a raw location. -/
inductive RedirectTarget where
  | strT (s : Str)
  | rawT (r : RawLocation)
deriving DecidableEq

/-- A validated route redirect: plain URL, raw-location object, or resolver
function (see `routeRedirect` in `src/route.js`). -/
inductive Redirect where
  | strR (s : Str)
  | rawR (r : RawLocation)
  | funcR (f : RouteView → RedirectTarget)

/-- The `redirect` property of a prefab before validation: may hold a value
of the wrong type. -/
inductive RedirectVal where
  | undef
  | null
  | strR (s : Str)
  | rawR (r : RawLocation)
  | funcR (f : RouteView → RedirectTarget)
  | other (v : JSVal)

/-- Caller-authored route prefab (`RouteConfigPrefab`): fields are dynamic
values whose types `createRouteConfig` validates. -/
inductive RouteConfigPrefab where
  | mk (path : JSVal) (name : JSVal) (component : JSVal) (meta : JSVal)
       (props : JSVal) (redirect : RedirectVal)
       (children : List RouteConfigPrefab)

def RouteConfigPrefab.path : RouteConfigPrefab → JSVal
  | .mk p _ _ _ _ _ _ => p

def RouteConfigPrefab.name : RouteConfigPrefab → JSVal
  | .mk _ n _ _ _ _ _ => n

def RouteConfigPrefab.component : RouteConfigPrefab → JSVal
  | .mk _ _ c _ _ _ _ => c

def RouteConfigPrefab.meta : RouteConfigPrefab → JSVal
  | .mk _ _ _ m _ _ _ => m

def RouteConfigPrefab.props : RouteConfigPrefab → JSVal
  | .mk _ _ _ _ pr _ _ => pr

def RouteConfigPrefab.redirect : RouteConfigPrefab → RedirectVal
  | .mk _ _ _ _ _ r _ => r

def RouteConfigPrefab.children : RouteConfigPrefab → List RouteConfigPrefab
  | .mk _ _ _ _ _ _ ch => ch

/-- Declared path string of a prefab (meaningful when `path` is a string). -/
def prefabPathStr (p : RouteConfigPrefab) : Str :=
  match p.path with
  | .str s => s
  | _ => []

/-- Validated fields returned by `createRouteConfig` in `src/route.js`
(the `children` array is filled in by `preprocessRoutes`; the cyclic
`parent` back-reference is not represented). -/
structure RouteConfigCore where
  path : Str
  redirect : Option Redirect
  component : JSVal
  name : JSVal
  meta : JSVal
  props : JSVal

/-- `createRouteConfig` from `src/route.js`: validate a prefab's fields and
build the config core.  The prefab itself is a structure here, so the
initial null-or-not-an-object check cannot fire. -/
def createRouteConfig (prefab : RouteConfigPrefab) : Except String RouteConfigCore :=
  if jsIsNullOrUndef prefab.path || !(jsIsString prefab.path) then
    .error "invalid route config path property"
  else if !(jsIsNullOrUndef prefab.component) && !(jsIsFunction prefab.component) then
    .error "invalid route config component property"
  else if jsTruthy prefab.meta && !(jsIsObject prefab.meta) then
    .error "invalid route config meta property"
  else
    match
      (match prefab.redirect with
        | .undef | .null => Except.ok (none : Option Redirect)
        | .strR s => Except.ok (some (.strR s))
        | .rawR r => Except.ok (some (.rawR r))
        | .funcR f => Except.ok (some (.funcR f))
        | .other _ => Except.error "invalid route config redirect property") with
    | .error e => .error e
    | .ok redirect =>
      match
        (if jsIsNullOrUndef prefab.props then Except.ok (JSVal.boolean false)
         else if prefab.props == .boolean true || jsIsObject prefab.props
              || jsIsFunction prefab.props then Except.ok prefab.props
         else Except.error "invalid route config props property") with
      | .error e => .error e
      | .ok props =>
        .ok { path := prefabPathStr prefab,
              redirect := redirect,
              component := jsOr prefab.component (.boolean false),
              name := jsOr prefab.name .null,
              meta := jsOr prefab.meta .obj,
              props := props }

/-- Compiled matcher of a route node: the literal wildcard path compiles to
the accept-anything regex `/.*​/i`, every other path goes through the external
`path-to-regexp` collaborator with an end-anchoring flag. -/
inductive Matcher where
  | anyURL
  | pattern (path : Str) (endAnchor : Bool)
deriving DecidableEq

/-- Compiled reverse generator of a route node: the wildcard generator always
yields the root path, every other node uses `pathToRegexp.compile(path)`. -/
inductive Generator where
  | rootGen
  | patternGen (path : Str)
deriving DecidableEq

/-- Modelled from the spec: the external pattern-compiler collaborator (§6)
extracts the declared parameter keys (name plus optional capture sub-pattern)
of a path pattern; modelled for segments of the form `:name` or
`:name(<sub-pattern>)`. -/
def patternParamKeys (path : Str) : List Str :=
  (splitChar '/' path).foldr (fun seg acc =>
    match seg with
    | ':' :: restSeg => restSeg.takeWhile (fun c => c != '(') :: acc
    | _ => acc) []

/-- Compiled route-tree node (`RouteConfig` in `src/router.ts`). -/
inductive RouteConfig where
  | mk (path : Str) (redirect : Option Redirect) (component : JSVal)
       (name : JSVal) (meta : JSVal) (props : JSVal)
       (children : List RouteConfig)
       (matcher : Matcher) (generator : Generator) (paramKeys : List Str)

def RouteConfig.path : RouteConfig → Str
  | .mk p _ _ _ _ _ _ _ _ _ => p

def RouteConfig.redirect : RouteConfig → Option Redirect
  | .mk _ r _ _ _ _ _ _ _ _ => r

def RouteConfig.component : RouteConfig → JSVal
  | .mk _ _ c _ _ _ _ _ _ _ => c

def RouteConfig.name : RouteConfig → JSVal
  | .mk _ _ _ n _ _ _ _ _ _ => n

def RouteConfig.meta : RouteConfig → JSVal
  | .mk _ _ _ _ m _ _ _ _ _ => m

def RouteConfig.props : RouteConfig → JSVal
  | .mk _ _ _ _ _ pr _ _ _ _ => pr

def RouteConfig.children : RouteConfig → List RouteConfig
  | .mk _ _ _ _ _ _ ch _ _ _ => ch

def RouteConfig.matcher : RouteConfig → Matcher
  | .mk _ _ _ _ _ _ _ m _ _ => m

def RouteConfig.generator : RouteConfig → Generator
  | .mk _ _ _ _ _ _ _ _ g _ => g

def RouteConfig.paramKeys : RouteConfig → List Str
  | .mk _ _ _ _ _ _ _ _ _ k => k

/-- `preprocessRoutes` from `src/router.ts`, as a pure recursion: convert a
prefab forest into a config forest, composing each node's path onto its
parent's compiled path, compiling the matcher/generator, skipping (with an
error message) every prefab `createRouteConfig` rejects, and recursing into
children.  Also returns the reported error messages in traversal order. -/
def composePath (parentPath : Option Str) (own : Str) : Str :=
  match parentPath with
  | some pp => if own.length > 0 then joinPath pp own else pp
  | none => own

def preprocessRoutes (parentPath : Option Str) :
    List RouteConfigPrefab → List RouteConfig × List String
  | [] => ([], [])
  | RouteConfigPrefab.mk p n c m pr rd children :: rest =>
    match createRouteConfig (.mk p n c m pr rd children) with
    | .error e =>
      let (cs, es) := preprocessRoutes parentPath rest
      (cs, ("invalid route, " ++ e) :: es)
    | .ok core =>
      let path := composePath parentPath core.path
      let (childCfgs, childErrs) := preprocessRoutes (some path) children
      let (cs, es) := preprocessRoutes parentPath rest
      (RouteConfig.mk path core.redirect core.component core.name core.meta
          core.props childCfgs
          (if path == ['*'] then Matcher.anyURL
           else Matcher.pattern path (children.length == 0))
          (if path == ['*'] then Generator.rootGen else Generator.patternGen path)
          (if path == ['*'] then [] else patternParamKeys path) :: cs,
       childErrs ++ es)
termination_by ps => sizeOf ps
decreasing_by all_goals simp_wf <;> omega

/-- `Record` from `src/route.js`: a resolved occurrence of a route config. -/
structure Record where
  path : Str
  redirect : Option Redirect
  name : JSVal
  component : JSVal
  meta : JSVal
  props : JSVal
  params : QueryMap

/-- The two shapes of the `params` argument of `createRouteRecord`: a regex
`exec` match array (index 0 is the whole match, groups may be `undefined`)
or a caller-supplied params object. -/
inductive MatchParams where
  | regex (caps : List (Option Str))
  | object (params : QueryMap)

/-- `createRouteRecord` from `src/route.js`: copy the config's fields and
restrict the params to the config's declared parameter keys (regex setter
reads capture `i + 1` for key `i`; object setter skips absent or
null/undefined values). -/
def createRouteRecord (route : RouteConfig) (params : MatchParams) : Record :=
  { path := route.path, redirect := route.redirect, name := route.name,
    component := route.component, meta := route.meta, props := route.props,
    params :=
      match params with
      | .regex caps =>
        (route.paramKeys.enum).foldl (fun acc ik =>
          match caps.get? (ik.1 + 1) with
          | some v => objInsert acc ik.2 v
          | none => acc) []
      | .object ps =>
        route.paramKeys.foldl (fun acc key =>
          match objLookup ps key with
          | some (some v) => objInsert acc key (some v)
          | _ => acc) [] }

/-- `Route` from `src/route.js`: the resolution result exposed to consumers. -/
structure Route where
  name : JSVal
  action : HistoryAction
  path : Str
  redirect : Option Redirect
  hash : Str
  fullPath : Str
  params : QueryMap
  query : QueryMap
  meta : JSVal
  matched : List Record

/-- Placeholder for the JS `undefined` read `matches[matches.length - 1]`
performs on an empty array; never reached on the pipeline's inputs. -/
def jsUndefinedRecord : Record :=
  { path := [], redirect := none, name := .undef, component := .undef,
    meta := .undef, props := .undef, params := [] }

/-- `createRoute` from `src/route.js`: merge a location with the matched
records; the deepest record supplies name/params/meta/redirect. -/
def createRoute (location : Location) (ms : List Record) : Route :=
  let route := ms.getLastD jsUndefinedRecord
  { name := route.name, action := location.action, path := location.path,
    redirect := route.redirect, hash := location.hash,
    fullPath := fullURL location.path (some location.query) location.hash,
    params := route.params, query := location.query, meta := route.meta,
    matched := ms }

/-- Semantics of the external `path-to-regexp` collaborator: `exec` runs a
compiled pattern (with its end-anchoring flag) against a candidate path and
yields the match array on success; `gen` reverse-generates a path from
params, failing on missing/invalid parameters. -/
structure PatternSem where
  exec : Str → Bool → Str → Option (List (Option Str))
  gen : Str → QueryMap → Except String Str

/-- Run a compiled matcher: the wildcard regex `/.*​/i` accepts every
candidate path (whole match, no groups); pattern matchers defer to the
collaborator semantics. -/
def execMatcher (sem : PatternSem) : Matcher → Str → Option (List (Option Str))
  | .anyURL, path => some [some path]
  | .pattern p e, path => sem.exec p e path

/-- Run a compiled generator: the wildcard generator is `() => '/'`; pattern
generators defer to the collaborator semantics. -/
def genEval (sem : PatternSem) : Generator → QueryMap → Except String Str
  | .rootGen, _ => .ok ['/']
  | .patternGen p, params => sem.gen p params

/-- Modelled from the spec: the external pattern-compiler collaborator (§6)
restricted to literal patterns (no parameter segments) — an end-anchored
literal matches exactly itself, a non-anchored literal matches itself or any
extension across a path separator; the generator yields the literal. -/
def literalSem : PatternSem :=
  { exec := fun pat endAnchor cand =>
      if endAnchor then (if cand == pat then some [some cand] else none)
      else (if cand == pat || hasPrefix cand (pat ++ ['/']) then some [some pat] else none),
    gen := fun pat _ => .ok pat }

/-- `matchRoute` from `src/router.ts`: depth-first, sibling-order traversal;
a match appends a record, a matched leaf terminates, a matched non-leaf
recurses into its children with the same candidate path and backtracks (the
record is dropped) when no descendant matches. -/
def matchRoute (sem : PatternSem) (path : Str) :
    List RouteConfig → List Record → Bool × List Record
  | [], ms => (false, ms)
  | RouteConfig.mk p rd c n m pr children mt g pk :: rest, ms =>
    let r := RouteConfig.mk p rd c n m pr children mt g pk
    match execMatcher sem r.matcher path with
    | none => matchRoute sem path rest ms
    | some caps =>
      let pushed := ms ++ [createRouteRecord r (.regex caps)]
      if children.length == 0 then (true, pushed)
      else
        match matchRoute sem path children pushed with
        | (true, out) => (true, out)
        | (false, _) => matchRoute sem path rest ms
termination_by rs => sizeOf rs
decreasing_by all_goals simp_wf <;> omega

/-- `findRouteByName` from `src/router.ts`, extended to also return the
ancestor chain (root first), which the source recovers through the `parent`
back-references. -/
def findRouteByName (name : Str) :
    List RouteConfig → Option (List RouteConfig × RouteConfig)
  | [] => none
  | RouteConfig.mk p rd c n m pr children mt g pk :: rest =>
    let r := RouteConfig.mk p rd c n m pr children mt g pk
    if (match r.name with | .str s => s == name | _ => false) then some ([], r)
    else
      match findRouteByName name children with
      | some (anc, found) => some (r :: anc, found)
      | none => findRouteByName name rest
termination_by rs => sizeOf rs
decreasing_by all_goals simp_wf <;> omega

/-- All configs of a forest, depth first. -/
def flattenConfigs : List RouteConfig → List RouteConfig
  | [] => []
  | RouteConfig.mk p rd c n m pr children mt g pk :: rest =>
    RouteConfig.mk p rd c n m pr children mt g pk ::
      (flattenConfigs children ++ flattenConfigs rest)
termination_by rs => sizeOf rs
decreasing_by all_goals simp_wf <;> omega

/-- Observable actions of a navigation run, in occurrence order.  Callback
identities let a restarted cycle show it carries the original callbacks. -/
inductive Effect where
  | beforeNav (fromFull toFull : Option Str)
  | navChanged (fromFull toFull : Option Str)
  | complete (id : Nat)
  | abortCb (id : Nat)
  | errorEvent (msg : String)
  | historyPush (p : Str)
  | historyReplace (p : Str)
  | windowReplace (p : Str)
  | guardInvoked (i : Nat)
  | panic (msg : String)
  | outOfFuel
deriving DecidableEq

/-- The value a navigation guard passes to its `next` callback, separated by
the dynamic checks `resolveNavigationGuard` performs (`next == undefined`
also catches `null`; `other` stands for any remaining value, e.g. a number). -/
inductive NextArg where
  | undef
  | nullv
  | tru
  | fals
  | err (msg : String)
  | str (s : Str)
  | rawLoc (r : RawLocation)
  | other
deriving DecidableEq

/-- A navigation guard: receives the current and pending routes and yields
the value it passes to `next` (modelling a guard that calls `next` exactly
once, synchronously). -/
abbrev GuardFn := Option Route → Option Route → NextArg

/-- Static router configuration relevant to the navigation pipeline. -/
structure Router where
  routes : List RouteConfig
  basename : Str
  guards : List GuardFn

/-- Mutable router state: committed route, in-flight pending route, and the
external history collaborator's current full URL. -/
structure RouterSt where
  current : Option Route
  pending : Option Route
  historyLoc : Str

/-- A restart of the push cycle (used by redirecting guards and redirects):
raw location, completion/abort callbacks, state. -/
abbrev PushK := RawLocation → Option Nat → Option Nat → RouterSt → RouterSt × List Effect

def completeE : Option Nat → List Effect
  | some i => [.complete i]
  | none => []

def abortE : Option Nat → List Effect
  | some i => [.abortCb i]
  | none => []

def strS (s : Str) : String := String.mk s

/-- Wrapping of a plain string argument by `push` into a raw location. -/
def strRawLocation (s : Str) : RawLocation := { path := some s }

/-- The `abort` closure of `resolveNavigationGuard` in `src/router.ts`:
clear the pending route, invoke the abort callback, emit an error event when
an error is given, and push the current route's full path back to the
history when the history no longer sits on it. -/
def guardAbort (st : RouterSt) (cbA : Option Nat) (err : Option String) :
    RouterSt × List Effect :=
  let st1 := { st with pending := none }
  let es := abortE cbA ++
    (match err with
     | some m => [Effect.errorEvent ("navigation guard error, " ++ m)]
     | none => [])
  match st.current with
  | some cur =>
    if st.historyLoc == cur.fullPath then (st1, es)
    else ({ st1 with historyLoc := cur.fullPath }, es ++ [.historyPush cur.fullPath])
  | none => (st1, es)

/-- `finishNavigationChange` from `src/router.ts`, with no asynchronous
components in flight (none are modelled): notify navigation-changed
listeners, commit the pending route, resynchronize the history according to
the route's action, and invoke the completion callback. -/
def finishNavigationChange (st : RouterSt) (cbC : Option Nat) :
    RouterSt × List Effect :=
  match st.pending with
  | none => (st, [.panic "navigation cannot be finished, missing pending route"])
  | some pending =>
    let navE := Effect.navChanged (st.current.map Route.fullPath) (some pending.fullPath)
    let st1 := { st with current := some pending, pending := none }
    let (st2, hE) :=
      if st.historyLoc == pending.fullPath then (st1, ([] : List Effect))
      else
        match pending.action with
        | .push => ({ st1 with historyLoc := pending.fullPath }, [.historyPush pending.fullPath])
        | .replace => ({ st1 with historyLoc := pending.fullPath }, [.historyReplace pending.fullPath])
        | .pop => (st1, [])
    (st2, navE :: hE ++ completeE cbC)

/-- `resolveNavigationGuard` from `src/router.ts`: run the guards in
registration order; dispatch on the guard's `next` value — `undefined`/`null`
continue (the code's loose `next == undefined`), `false` aborts silently, an
`Error` aborts with an error event, a string or raw location clears the
pending route and restarts the push cycle with the original callbacks, and
any other value (including `true`) aborts with the unexpected-directive
error. -/
def runGuards (pushK : PushK) (st : RouterSt) (index : Nat)
    (gs : List GuardFn) (cbC cbA : Option Nat) : RouterSt × List Effect :=
  match gs with
  | [] => finishNavigationChange st cbC
  | g :: rest =>
    let inv := Effect.guardInvoked index
    match g st.current st.pending with
    | .undef | .nullv =>
      let (st1, es) := runGuards pushK st (index + 1) rest cbC cbA
      (st1, inv :: es)
    | .fals =>
      let (st1, es) := guardAbort st cbA none
      (st1, inv :: es)
    | .err m =>
      let (st1, es) := guardAbort st cbA (some m)
      (st1, inv :: es)
    | .str s =>
      let (st1, es) := pushK (strRawLocation s) cbC cbA { st with pending := none }
      (st1, inv :: es)
    | .rawLoc r =>
      let (st1, es) := pushK r cbC cbA { st with pending := none }
      (st1, inv :: es)
    | .tru | .other =>
      let (st1, es) := guardAbort st cbA (some "unexpected next(val) value.")
      (st1, inv :: es)

/-- Projection handed to a redirect resolver function. -/
def routeView (r : Route) : RouteView :=
  { name := r.name, path := r.path, hash := r.hash, fullPath := r.fullPath,
    params := r.params, query := r.query }

/-- Placeholder for the JS `null` pending route a redirect resolver would
receive outside the pipeline; never reached on the pipeline's inputs. -/
def jsNullRoute : Route :=
  { name := .null, action := .push, path := [], redirect := none, hash := [],
    fullPath := [], params := [], query := [], meta := .null, matched := [] }

/-- `resolveRedirect` from `src/router.ts`: evaluate a resolver function
against the pending route; a resulting string starting with `http` performs
a full page navigation (window redirect) and stops, otherwise the pending
route is discarded and the push cycle restarts with the redirect target and
the original callbacks. -/
def resolveRedirect (pushK : PushK) (st : RouterSt) (redirect : Redirect)
    (cbC cbA : Option Nat) : RouterSt × List Effect :=
  let target : RedirectTarget :=
    match redirect with
    | .funcR f => f (routeView ((st.pending.getD jsNullRoute)))
    | .strR s => .strT s
    | .rawR r => .rawT r
  match target with
  | .strT s =>
    if hasPrefix s "http".toList then (st, [.windowReplace s])
    else pushK (strRawLocation s) cbC cbA { st with pending := none }
  | .rawT r => pushK r cbC cbA { st with pending := none }

/-- Basename stripping at the head of `resolveRoute`. -/
def stripBase (rt : Router) (location : Location) : Location :=
  if rt.basename.length > 0 then
    { location with path := trimPrefix location.path rt.basename }
  else location

/-- `resolveRoute` from `src/router.ts`: strip the basename, resolve by name
(reverse-generating the path and walking the ancestor chain) or by path
(depth-first matching), build the pending route, follow a declared redirect,
short-circuit when the pending route's full path equals the current one,
otherwise notify before-navigation listeners and enter the guard chain. -/
def resolveRoute (sem : PatternSem) (rt : Router) (pushK : PushK)
    (st : RouterSt) (location : Location) (cbC cbA : Option Nat) :
    RouterSt × List Effect :=
  let location := stripBase rt location
  let resolved : Except (List Effect) (Location × List Record) :=
    if (location.name.getD []).length > 0 then
      match findRouteByName (location.name.getD []) rt.routes with
      | none =>
        .error (abortE cbA ++
          [.errorEvent ("no matching route found for name:" ++ strS (location.name.getD []))])
      | some (ancestors, found) =>
        match genEval sem found.generator location.params with
        | .error e =>
          .error (abortE cbA ++ [.errorEvent ("invalid route parameters, :" ++ e)])
        | .ok url =>
          .ok ({ location with path := url },
               (ancestors ++ [found]).map
                 (fun cfg => createRouteRecord cfg (.object location.params)))
    else
      match matchRoute sem location.path rt.routes [] with
      | (false, _) =>
        .error (abortE cbA ++
          [.errorEvent ("no matching route found for path:" ++ strS location.path)])
      | (true, ms) => .ok (location, ms)
  match resolved with
  | .error es => (st, es)
  | .ok (location, ms) =>
    let pending := createRoute location ms
    let st1 := { st with pending := some pending }
    match pending.redirect with
    | some rd => resolveRedirect pushK st1 rd cbC cbA
    | none =>
      if (match st.current with
          | some cur => pending.fullPath == cur.fullPath
          | none => false) then
        ({ st1 with pending := none }, completeE cbC)
      else
        let (st2, es) := runGuards pushK st1 0 rt.guards cbC cbA
        (st2, .beforeNav (st.current.map Route.fullPath) (some pending.fullPath) :: es)

/-- One `push`/`replace` cycle from `src/router.ts`: normalize the raw
location (on failure invoke the abort callback and emit an error event),
then resolve the route. -/
def routerCycle (sem : PatternSem) (rt : Router) (pushK : PushK)
    (replaceFlag : Bool) (raw : RawLocation) (cbC cbA : Option Nat)
    (st : RouterSt) : RouterSt × List Effect :=
  match createLocation { raw with replace := replaceFlag } with
  | .error e => (st, abortE cbA ++ [.errorEvent ("invalid location, " ++ e)])
  | .ok location => resolveRoute sem rt pushK st location cbC cbA

/-- Fuel-indexed tie of the push-cycle knot: each restart of the cycle (by a
redirecting guard or a route redirect) consumes one unit of fuel. -/
def routerPushLoop (sem : PatternSem) (rt : Router) : Nat → PushK
  | 0 => fun _ _ _ st => (st, [.outOfFuel])
  | fuel + 1 => fun raw cbC cbA st =>
    routerCycle sem rt (routerPushLoop sem rt fuel) false raw cbC cbA st

/-- `Router.push`: run one push cycle with the given fuel for restarts. -/
def routerPush (sem : PatternSem) (rt : Router) (fuel : Nat) (st : RouterSt)
    (raw : RawLocation) (cbC cbA : Option Nat) : RouterSt × List Effect :=
  routerCycle sem rt (routerPushLoop sem rt fuel) false raw cbC cbA st

/-- `Router.replace`: as `routerPush` but normalizing with the replace flag
set (restarted cycles push, as in the source). -/
def routerReplace (sem : PatternSem) (rt : Router) (fuel : Nat) (st : RouterSt)
    (raw : RawLocation) (cbC cbA : Option Nat) : RouterSt × List Effect :=
  routerCycle sem rt (routerPushLoop sem rt fuel) true raw cbC cbA st

/-! Concrete fixtures shared by the example-level theorems: the wildcard-only
tree `[{path: '/home'}, {path: '*'}]` of the specification. -/

def homePrefab : RouteConfigPrefab :=
  .mk (.str ['/', 'h', 'o', 'm', 'e']) .undef .undef .undef .undef .undef []

def wildcardPrefab : RouteConfigPrefab :=
  .mk (.str ['*']) .undef .undef .undef .undef .undef []

def demoRoutes : List RouteConfig :=
  (preprocessRoutes none [homePrefab, wildcardPrefab]).1

def demoStart : RouterSt := { current := none, pending := none, historyLoc := ['/'] }

def trueGuardRouter : Router :=
  { routes := demoRoutes, basename := [], guards := [fun _ _ => .tru] }

/-- C10: the empty string is never a prefix or suffix of anything, nothing
has a prefix when it is itself empty, and trimming the empty prefix is the
identity. -/
theorem c10_empty_needle_and_empty_haystack (s p : Str) :
    hasPrefix s [] = false ∧ hasSuffix s [] = false ∧ hasPrefix [] p = false ∧
    trimPrefix s [] = s := by
  refine ⟨?_, ?_, ?_, ?_⟩
  · simp [ hasPrefix]
  · simp [ hasSuffix]
  · simp [ hasPrefix]
  · simp [ trimPrefix]

/-- C8: during route-tree preprocessing, a prefab rejected by
`createRouteConfig` is reported to the error channel and skipped together
with its whole subtree, and the remaining siblings are still processed
exactly as they would be without it. -/
theorem c8_invalid_prefab_skipped (parentPath : Option Str)
    (ps1 ps2 : List RouteConfigPrefab) (bad : RouteConfigPrefab) (e : String)
    (hbad : createRouteConfig bad = .error e) :
    preprocessRoutes parentPath (ps1 ++ bad :: ps2) =
      ((preprocessRoutes parentPath ps1).1 ++ (preprocessRoutes parentPath ps2).1,
       (preprocessRoutes parentPath ps1).2 ++ ("invalid route, " ++ e) ::
         (preprocessRoutes parentPath ps2).2) := by
  induction ps1 with
  | nil =>
    cases bad with
    | mk p n c m pr rd ch =>
      rcases hps : preprocessRoutes parentPath ps2 with ⟨cs, es⟩
      simp [preprocessRoutes, hbad, hps]
  | cons q rest ih =>
    cases q with
    | mk p n c m pr rd ch =>
      rcases hrest : preprocessRoutes parentPath (rest ++ bad :: ps2) with ⟨cs1, es1⟩
      rcases hr : preprocessRoutes parentPath rest with ⟨cs2, es2⟩
      rcases hp2 : preprocessRoutes parentPath ps2 with ⟨cs3, es3⟩
      rw [hrest, hr, hp2] at ih
      cases hq : createRouteConfig (.mk p n c m pr rd ch) with
      | error e2 => simp [preprocessRoutes, hq, hrest, hr, hp2, ih]
      | ok core => simp [preprocessRoutes, hq, hrest, hr, hp2, ih]

def badPathPrefab : RouteConfigPrefab :=
  .mk (.num 5) .undef .undef .undef .undef .undef []

theorem c8_invalid_prefab_skipped_witness :
    createRouteConfig badPathPrefab = .error "invalid route config path property" ∧
    preprocessRoutes none ([homePrefab] ++ badPathPrefab :: [wildcardPrefab]) =
      ((preprocessRoutes none [homePrefab]).1 ++ (preprocessRoutes none [wildcardPrefab]).1,
       (preprocessRoutes none [homePrefab]).2 ++
         ("invalid route, " ++ "invalid route config path property") ::
           (preprocessRoutes none [wildcardPrefab]).2) :=
  ⟨rfl, c8_invalid_prefab_skipped none [homePrefab] [wildcardPrefab] badPathPrefab
    "invalid route config path property" rfl⟩

/-- C1 (divergence witness): a navigation guard that calls `next(true)` does
not advance to the rest of the chain or commit, contrary to the declared
protocol (and to the source's own comment `fn() or fn(true) = Continue.`):
the dispatch in `resolveNavigationGuard` only treats `undefined`/`null` as
a continue directive, so `true` falls through to the unexpected-directive
branch, aborting the navigation, invoking the abort callback, and emitting
the `unexpected next(val) value.` error — the navigation-changed listeners
are never notified. -/
theorem c1_next_true_unexpected_abort :
    routerPush literalSem trueGuardRouter 1 demoStart
      (strRawLocation ['/', 'h', 'o', 'm', 'e']) (some 1) (some 2) =
    ({ current := none, pending := none, historyLoc := ['/'] },
     [.beforeNav none (some ['/', 'h', 'o', 'm', 'e']), .guardInvoked 0, .abortCb 2,
      .errorEvent "navigation guard error, unexpected next(val) value."]) := by
  simp [demoRoutes, preprocessRoutes, homePrefab, wildcardPrefab, createRouteConfig,
    prefabPathStr, RouteConfigPrefab.path, RouteConfigPrefab.name, RouteConfigPrefab.component,
    RouteConfigPrefab.meta, RouteConfigPrefab.props, RouteConfigPrefab.redirect,
    RouteConfigPrefab.children, jsIsNullOrUndef, jsIsString, jsIsFunction, jsIsObject,
    jsTruthy, jsOr, patternParamKeys, splitChar, composePath, matchRoute, execMatcher, literalSem,
    RouteConfig.matcher, RouteConfig.path, RouteConfig.children, RouteConfig.paramKeys,
    RouteConfig.redirect, RouteConfig.component, RouteConfig.name, RouteConfig.meta,
    RouteConfig.props, RouteConfig.generator, createRouteRecord, hasPrefix,
    routerPush, routerCycle, routerPushLoop, createLocation, normalizedPath, parseURL, parseQuery,
    replaceFirstChar, objInsert, objAssign, objLookup, fullURL, optValStr,
    resolveRoute, stripBase, trimPrefix, trueGuardRouter, demoStart, strRawLocation,
    runGuards, guardAbort, finishNavigationChange, resolveRedirect, routeView,
    createRoute, jsUndefinedRecord, completeE, abortE, strS, Record.path,
    Route.fullPath, findRouteByName, genEval]

/-- A root-to-leaf acceptance chain for a candidate path in a route forest:
either the head sibling's matcher accepts and it is a leaf (single-record
chain), or it accepts and some chain continues through its children with the
same candidate path, or the chain lives entirely in a later sibling. -/
inductive MatchChain (sem : PatternSem) (path : Str) :
    List RouteConfig → List Record → Prop
  | found {r : RouteConfig} {rest : List RouteConfig} {caps : List (Option Str)} :
      execMatcher sem r.matcher path = some caps → r.children = [] →
      MatchChain sem path (r :: rest) [createRouteRecord r (.regex caps)]
  | deeper {r : RouteConfig} {rest : List RouteConfig} {caps : List (Option Str)}
      {recs : List Record} :
      execMatcher sem r.matcher path = some caps → r.children ≠ [] →
      MatchChain sem path r.children recs →
      MatchChain sem path (r :: rest) (createRouteRecord r (.regex caps) :: recs)
  | sibling {r : RouteConfig} {rest : List RouteConfig} {recs : List Record} :
      MatchChain sem path rest recs → MatchChain sem path (r :: rest) recs

theorem matchRoute_sound_aux (sem : PatternSem) (path : Str) :
    ∀ (n : Nat) (routes : List RouteConfig), sizeOf routes ≤ n →
      ∀ acc out, matchRoute sem path routes acc = (true, out) →
      ∃ recs, out = acc ++ recs ∧ recs ≠ [] ∧ MatchChain sem path routes recs := by
  intro n
  induction n with
  | zero =>
    intro routes hsz
    cases routes with
    | nil => intro acc out h; simp [matchRoute] at h
    | cons r rest =>
      exfalso
      cases r with
      | mk p rd c nm m pr children mt g pk => simp at hsz
  | succ n ih =>
    intro routes hsz acc out h
    cases routes with
    | nil => simp [matchRoute] at h
    | cons r rest =>
      cases r with
      | mk p rd c nm m pr children mt g pk =>
        have hrest : sizeOf rest ≤ n := by simp at hsz; omega
        have hch : sizeOf children ≤ n := by simp at hsz; omega
        rw [matchRoute] at h
        cases hexec : execMatcher sem (RouteConfig.mk p rd c nm m pr children mt g pk).matcher path with
        | none =>
          rw [show (RouteConfig.mk p rd c nm m pr children mt g pk).matcher = mt from rfl] at hexec
          simp only [RouteConfig.matcher, hexec] at h
          obtain ⟨recs, h1, h2, h3⟩ := ih rest hrest acc out h
          exact ⟨recs, h1, h2, .sibling h3⟩
        | some caps =>
          rw [show (RouteConfig.mk p rd c nm m pr children mt g pk).matcher = mt from rfl] at hexec
          simp only [RouteConfig.matcher, hexec] at h
          by_cases hlen : children.length = 0
          · have hnil : children = [] := List.length_eq_zero.mp hlen
            simp only [hlen, beq_self_eq_true, if_true] at h
            have hout : acc ++ [createRouteRecord (RouteConfig.mk p rd c nm m pr children mt g pk) (.regex caps)] = out := by
              simpa using congrArg Prod.snd h
            refine ⟨[createRouteRecord (RouteConfig.mk p rd c nm m pr children mt g pk) (.regex caps)],
              hout.symm, by simp, ?_⟩
            exact MatchChain.found (by simpa [RouteConfig.matcher] using hexec)
              (by simpa [RouteConfig.children] using hnil)
          · have hlen2 : (children.length == 0) = false := by simpa using hlen
            simp only [hlen2, Bool.false_eq_true, if_false] at h
            cases hchild : matchRoute sem path children
                (acc ++ [createRouteRecord (RouteConfig.mk p rd c nm m pr children mt g pk) (.regex caps)]) with
            | mk ok out2 =>
              rw [hchild] at h
              cases ok with
              | true =>
                simp only [] at h
                have hout : out2 = out := by
                  simpa using congrArg Prod.snd h
                obtain ⟨recs, h1, h2, h3⟩ := ih children hch _ _ hchild
                refine ⟨createRouteRecord (RouteConfig.mk p rd c nm m pr children mt g pk) (.regex caps) :: recs,
                  ?_, by simp, ?_⟩
                · rw [← hout, h1]; simp
                · exact MatchChain.deeper (by simpa [RouteConfig.matcher] using hexec)
                    (by simpa [RouteConfig.children] using hlen) h3
              | false =>
                have h2 : matchRoute sem path rest acc = (true, out) := h
                obtain ⟨recs, h1, h2, h3⟩ := ih rest hrest acc out h2
                exact ⟨recs, h1, h2, .sibling h3⟩

/-- C6: whenever the depth-first, sibling-order traversal `matchRoute`
succeeds, the records it appended to the accumulator form a non-empty
root-to-leaf acceptance chain of the forest (each record comes from a node
whose matcher accepts the same candidate path, descending only into
children of matched nodes and ending at a childless node; siblings are
skipped, matching the pop/backtrack behaviour); and in the wildcard-only
tree `[{path:'/home'}, {path:'*'}]` the unmatched path `/unknown/path`
yields a single-record chain whose record has path `*`. -/
theorem c6_match_depth_first_chain :
    (∀ (sem : PatternSem) (path : Str) (routes : List RouteConfig)
        (acc out : List Record),
        matchRoute sem path routes acc = (true, out) →
        ∃ recs, out = acc ++ recs ∧ recs ≠ [] ∧ MatchChain sem path routes recs) ∧
    ((matchRoute literalSem
        ['/', 'u', 'n', 'k', 'n', 'o', 'w', 'n', '/', 'p', 'a', 't', 'h']
        demoRoutes []).1 = true ∧
     (matchRoute literalSem
        ['/', 'u', 'n', 'k', 'n', 'o', 'w', 'n', '/', 'p', 'a', 't', 'h']
        demoRoutes []).2.map Record.path = [['*']]) := by
  constructor
  · intro sem path routes acc out h
    exact matchRoute_sound_aux sem path (sizeOf routes) routes le_rfl acc out h
  · constructor <;>
      simp [demoRoutes, preprocessRoutes, homePrefab, wildcardPrefab, createRouteConfig,
        prefabPathStr, RouteConfigPrefab.path, RouteConfigPrefab.name, RouteConfigPrefab.component,
        RouteConfigPrefab.meta, RouteConfigPrefab.props, RouteConfigPrefab.redirect,
        RouteConfigPrefab.children, jsIsNullOrUndef, jsIsString, jsIsFunction, jsIsObject,
        jsTruthy, jsOr, patternParamKeys, splitChar, composePath, matchRoute, execMatcher, literalSem,
        RouteConfig.matcher, RouteConfig.path, RouteConfig.children, RouteConfig.paramKeys,
        RouteConfig.redirect, RouteConfig.component, RouteConfig.name, RouteConfig.meta,
        RouteConfig.props, RouteConfig.generator, createRouteRecord, hasPrefix, Record.path]

/-- The record the wildcard node of the demo tree produces. -/
def wildcardRecord : Record :=
  { path := ['*'], redirect := none, name := .null, component := .boolean false,
    meta := .obj, props := .boolean false, params := [] }

theorem c6_match_depth_first_chain_witness :
    matchRoute literalSem
        ['/', 'u', 'n', 'k', 'n', 'o', 'w', 'n', '/', 'p', 'a', 't', 'h']
        demoRoutes [] = (true, [wildcardRecord]) ∧
    (∃ recs, [wildcardRecord] = [] ++ recs ∧ recs ≠ [] ∧
      MatchChain literalSem
        ['/', 'u', 'n', 'k', 'n', 'o', 'w', 'n', '/', 'p', 'a', 't', 'h']
        demoRoutes recs) := by
  have hrun : matchRoute literalSem
      ['/', 'u', 'n', 'k', 'n', 'o', 'w', 'n', '/', 'p', 'a', 't', 'h']
      demoRoutes [] = (true, [wildcardRecord]) := by
    simp [demoRoutes, preprocessRoutes, homePrefab, wildcardPrefab, createRouteConfig,
      prefabPathStr, RouteConfigPrefab.path, RouteConfigPrefab.name, RouteConfigPrefab.component,
      RouteConfigPrefab.meta, RouteConfigPrefab.props, RouteConfigPrefab.redirect,
      RouteConfigPrefab.children, jsIsNullOrUndef, jsIsString, jsIsFunction, jsIsObject,
      jsTruthy, jsOr, patternParamKeys, splitChar, composePath, matchRoute, execMatcher, literalSem,
      RouteConfig.matcher, RouteConfig.path, RouteConfig.children, RouteConfig.paramKeys,
      RouteConfig.redirect, RouteConfig.component, RouteConfig.name, RouteConfig.meta,
      RouteConfig.props, RouteConfig.generator, createRouteRecord, hasPrefix, wildcardRecord]
  exact ⟨hrun, c6_match_depth_first_chain.1 literalSem _ demoRoutes [] [wildcardRecord] hrun⟩

/-- Every node of a prefab forest passes `createRouteConfig` validation. -/
def prefabsOk : List RouteConfigPrefab → Bool
  | [] => true
  | RouteConfigPrefab.mk p n c m pr rd ch :: rest =>
    (match createRouteConfig (.mk p n c m pr rd ch) with
     | .ok _ => true
     | .error _ => false) && prefabsOk ch && prefabsOk rest
termination_by ps => sizeOf ps
decreasing_by all_goals simp_wf <;> omega

theorem preprocessRoutes_length (parentPath : Option Str)
    (ps : List RouteConfigPrefab) (hok : prefabsOk ps = true) :
    ((preprocessRoutes parentPath ps).1).length = ps.length := by
  induction ps with
  | nil => simp [preprocessRoutes]
  | cons q rest ih =>
    cases q with
    | mk p n c m pr rd ch =>
      rw [prefabsOk] at hok
      cases hcc : createRouteConfig (.mk p n c m pr rd ch) with
      | error e => rw [hcc] at hok; simp at hok
      | ok core =>
        rw [hcc] at hok
        simp only [Bool.and_eq_true] at hok
        rcases hch : preprocessRoutes (some (composePath parentPath core.path)) ch with ⟨ccs, ces⟩
        rcases hrest : preprocessRoutes parentPath rest with ⟨cs, es⟩
        have hlen := ih hok.2
        rw [hrest] at hlen
        simp [preprocessRoutes, hcc, hch, hrest]
        simpa using hlen

theorem c5_aux : ∀ (n : Nat) (ps : List RouteConfigPrefab), sizeOf ps ≤ n →
    ∀ (parentPath : Option Str), prefabsOk ps = true →
    ∀ c ∈ flattenConfigs (preprocessRoutes parentPath ps).1,
      (c.path = ['*'] →
        c.matcher = .anyURL ∧ c.generator = .rootGen ∧
        (∀ sem cand, execMatcher sem c.matcher cand = some [some cand]) ∧
        (∀ sem params, genEval sem c.generator params = .ok ['/'])) ∧
      (c.path ≠ ['*'] →
        c.matcher = .pattern c.path (c.children.length == 0) ∧
        c.generator = .patternGen c.path) := by
  intro n
  induction n with
  | zero =>
    intro ps hsz parentPath hok c hc
    cases ps with
    | nil => simp [preprocessRoutes, flattenConfigs] at hc
    | cons q rest => cases q with | mk p nn cc mm pp rr chh => simp at hsz
  | succ n ih =>
    intro ps hsz parentPath hok c hc
    cases ps with
    | nil => simp [preprocessRoutes, flattenConfigs] at hc
    | cons q rest =>
      cases q with
      | mk p nm cmp mta prp rdr ch =>
        have hszr : sizeOf rest ≤ n := by simp at hsz; omega
        have hszc : sizeOf ch ≤ n := by simp at hsz; omega
        rw [prefabsOk] at hok
        cases hcc : createRouteConfig (.mk p nm cmp mta prp rdr ch) with
        | error e =>
          rw [hcc] at hok
          simp at hok
        | ok core =>
          rw [hcc] at hok
          simp only [Bool.and_eq_true] at hok
          obtain ⟨⟨-, hokc⟩, hokr⟩ := hok
          rcases hch : preprocessRoutes (some (composePath parentPath core.path)) ch with ⟨ccs, ces⟩
          rcases hrest : preprocessRoutes parentPath rest with ⟨cs, es⟩
          rw [preprocessRoutes, hcc] at hc
          simp only [hch, hrest] at hc
          rw [flattenConfigs] at hc
          rcases List.mem_cons.mp hc with hc | hc
          · subst hc
            by_cases hstar : composePath parentPath core.path = ['*']
            · constructor
              · intro _
                refine ⟨by simp [RouteConfig.matcher, hstar], by simp [RouteConfig.generator, hstar], ?_, ?_⟩
                · intro sem cand
                  simp [RouteConfig.matcher, hstar, execMatcher]
                · intro sem params
                  simp [RouteConfig.generator, hstar, genEval]
              · intro hne
                exact absurd (by simpa [RouteConfig.path] using hstar) hne
            · constructor
              · intro heq
                exact absurd (by simpa [RouteConfig.path] using heq) hstar
              · intro _
                have hlen : ccs.length = ch.length := by
                  have := preprocessRoutes_length (some (composePath parentPath core.path)) ch hokc
                  rw [hch] at this
                  simpa using this
                constructor
                · simp [RouteConfig.matcher, RouteConfig.path, RouteConfig.children, hstar, hlen]
                · simp [RouteConfig.generator, RouteConfig.path, hstar]
          · rcases List.mem_append.mp hc with hc | hc
            · have := ih ch hszc (some (composePath parentPath core.path)) hokc c
              rw [hch] at this
              exact this (by simpa [RouteConfig.children] using hc)
            · have := ih rest hszr parentPath hokr c
              rw [hrest] at this
              exact this hc

def starParentPrefab : RouteConfigPrefab :=
  .mk (.str ['/', 'a']) .undef .undef .undef .undef .undef [wildcardPrefab]

def starChildConfig : RouteConfig :=
  .mk ['/', 'a', '/', '*'] none (.boolean false) .null .obj (.boolean false) []
    (.pattern ['/', 'a', '/', '*'] true) (.patternGen ['/', 'a', '/', '*']) []

def starParentConfig : RouteConfig :=
  .mk ['/', 'a'] none (.boolean false) .null .obj (.boolean false) [starChildConfig]
    (.pattern ['/', 'a'] false) (.patternGen ['/', 'a']) []

/-- C5 counterexample: in the valid forest [\x7bpath: '/a', children:
[\x7bpath: '*'\x7d]\x7d] the child node's *declared* path is the literal
wildcard, yet preprocessing joins it to the parent path first and the check
`route.path == '*'` runs on the composed path '/a/*': the child is compiled
through the pattern compiler with end-anchoring, its matcher is not the
accept-all matcher (under the literal collaborator it rejects the candidate
'/x'), and its generator is not the root generator (it yields '/a/*', not
'/'). This refutes the claim that a node *declaring* '*' always receives the
wildcard treatment. -/
theorem c5_declared_wildcard_counterexample :
    prefabsOk [starParentPrefab] = true ∧
    starParentPrefab.children.map prefabPathStr = [['*']] ∧
    flattenConfigs (preprocessRoutes none [starParentPrefab]).1 =
      [starParentConfig, starChildConfig] ∧
    starChildConfig.matcher = .pattern ['/', 'a', '/', '*'] true ∧
    starChildConfig.matcher ≠ .anyURL ∧
    execMatcher literalSem starChildConfig.matcher ['/', 'x'] = none ∧
    starChildConfig.generator ≠ .rootGen ∧
    genEval literalSem starChildConfig.generator [] = .ok ['/', 'a', '/', '*'] := by
  refine ⟨?_, rfl, ?_, rfl, by decide, rfl, by decide, rfl⟩
  · simp [prefabsOk, starParentPrefab, wildcardPrefab, createRouteConfig, prefabPathStr,
      RouteConfigPrefab.path, RouteConfigPrefab.name, RouteConfigPrefab.component,
      RouteConfigPrefab.meta, RouteConfigPrefab.props, RouteConfigPrefab.redirect,
      RouteConfigPrefab.children, jsIsNullOrUndef, jsIsString, jsIsFunction, jsIsObject,
      jsTruthy, jsOr]
  · simp [preprocessRoutes, starParentPrefab, wildcardPrefab, createRouteConfig, prefabPathStr,
      RouteConfigPrefab.path, RouteConfigPrefab.name, RouteConfigPrefab.component,
      RouteConfigPrefab.meta, RouteConfigPrefab.props, RouteConfigPrefab.redirect,
      RouteConfigPrefab.children, jsIsNullOrUndef, jsIsString, jsIsFunction, jsIsObject,
      jsTruthy, jsOr, patternParamKeys, splitChar, composePath, joinPath, hasSuffix,
      hasPrefix, flattenConfigs, starParentConfig, starChildConfig]

/-- C5 (amended): during preprocessing a node whose *composed* path — its
declared path joined onto the parent chain — is the literal wildcard '*' is
compiled to the matcher accepting every candidate path and the generator
always yielding the root path '/', while every node whose composed path
differs from '*' (even one declaring '*' under a non-empty parent path) is
compiled through the pattern compiler over its composed path with
end-anchoring enabled if and only if the node has no children, together
with the pattern generator for that path. -/
theorem c5_wildcard_and_pattern_compilation (ps : List RouteConfigPrefab)
    (parentPath : Option Str) (hok : prefabsOk ps = true) :
    ∀ c ∈ flattenConfigs (preprocessRoutes parentPath ps).1,
      (c.path = ['*'] →
        c.matcher = .anyURL ∧ c.generator = .rootGen ∧
        (∀ sem cand, execMatcher sem c.matcher cand = some [some cand]) ∧
        (∀ sem params, genEval sem c.generator params = .ok ['/'])) ∧
      (c.path ≠ ['*'] →
        c.matcher = .pattern c.path (c.children.length == 0) ∧
        c.generator = .patternGen c.path) :=
  c5_aux (sizeOf ps) ps le_rfl parentPath hok

def homeConfig : RouteConfig :=
  .mk ['/', 'h', 'o', 'm', 'e'] none (.boolean false) .null .obj (.boolean false) []
    (.pattern ['/', 'h', 'o', 'm', 'e'] true) (.patternGen ['/', 'h', 'o', 'm', 'e']) []

def wildcardConfig : RouteConfig :=
  .mk ['*'] none (.boolean false) .null .obj (.boolean false) [] .anyURL .rootGen []

theorem c5_wildcard_and_pattern_compilation_witness :
    prefabsOk [homePrefab, wildcardPrefab] = true ∧
    wildcardConfig ∈ flattenConfigs (preprocessRoutes none [homePrefab, wildcardPrefab]).1 ∧
    ((wildcardConfig.path = ['*'] →
        wildcardConfig.matcher = .anyURL ∧ wildcardConfig.generator = .rootGen ∧
        (∀ sem cand, execMatcher sem wildcardConfig.matcher cand = some [some cand]) ∧
        (∀ sem params, genEval sem wildcardConfig.generator params = .ok ['/'])) ∧
      (wildcardConfig.path ≠ ['*'] →
        wildcardConfig.matcher = .pattern wildcardConfig.path
          (wildcardConfig.children.length == 0) ∧
        wildcardConfig.generator = .patternGen wildcardConfig.path)) := by
  have hok : prefabsOk [homePrefab, wildcardPrefab] = true := by
    simp [prefabsOk, homePrefab, wildcardPrefab, createRouteConfig, prefabPathStr,
      RouteConfigPrefab.path, RouteConfigPrefab.name, RouteConfigPrefab.component,
      RouteConfigPrefab.meta, RouteConfigPrefab.props, RouteConfigPrefab.redirect,
      RouteConfigPrefab.children, jsIsNullOrUndef, jsIsString, jsIsFunction, jsIsObject,
      jsTruthy, jsOr]
  have hflat : flattenConfigs (preprocessRoutes none [homePrefab, wildcardPrefab]).1 =
      [homeConfig, wildcardConfig] := by
    simp [preprocessRoutes, homePrefab, wildcardPrefab, createRouteConfig, prefabPathStr,
      RouteConfigPrefab.path, RouteConfigPrefab.name, RouteConfigPrefab.component,
      RouteConfigPrefab.meta, RouteConfigPrefab.props, RouteConfigPrefab.redirect,
      RouteConfigPrefab.children, jsIsNullOrUndef, jsIsString, jsIsFunction, jsIsObject,
      jsTruthy, jsOr, patternParamKeys, splitChar, composePath, flattenConfigs,
      homeConfig, wildcardConfig]
  have hmem : wildcardConfig ∈ flattenConfigs (preprocessRoutes none [homePrefab, wildcardPrefab]).1 := by
    rw [hflat]; simp
  exact ⟨hok, hmem,
    c5_wildcard_and_pattern_compilation [homePrefab, wildcardPrefab] none hok wildcardConfig hmem⟩

theorem guardInvoked_not_in_guardAbort (st : RouterSt) (cbA : Option Nat)
    (err : Option String) (j : Nat) :
    Effect.guardInvoked j ∉ (guardAbort st cbA err).2 := by
  unfold guardAbort
  rcases hcur : st.current with _ | cur
  · rcases cbA with _ | a <;> rcases err with _ | m <;> simp [abortE]
  · by_cases hh : st.historyLoc == cur.fullPath <;>
      rcases cbA with _ | a <;> rcases err with _ | m <;> simp [abortE, hh]

theorem navChanged_not_in_guardAbort (st : RouterSt) (cbA : Option Nat)
    (err : Option String) (a b : Option Str) :
    Effect.navChanged a b ∉ (guardAbort st cbA err).2 := by
  unfold guardAbort
  rcases hcur : st.current with _ | cur
  · rcases cbA with _ | x <;> rcases err with _ | m <;> simp [abortE]
  · by_cases hh : st.historyLoc == cur.fullPath <;>
      rcases cbA with _ | x <;> rcases err with _ | m <;> simp [abortE, hh]

theorem runGuards_false_aborts (pushK : PushK) (st : RouterSt) (cbC cbA : Option Nat) :
    ∀ (gs : List GuardFn) (k i : Nat) (hi : i < gs.length),
      (∀ j (hj : j < gs.length), j < i →
          gs.get ⟨j, hj⟩ st.current st.pending = .undef ∨
          gs.get ⟨j, hj⟩ st.current st.pending = .nullv) →
      gs.get ⟨i, hi⟩ st.current st.pending = .fals →
      runGuards pushK st k gs cbC cbA =
        ((guardAbort st cbA none).1,
         ((List.range (i + 1)).map (fun j => Effect.guardInvoked (k + j))) ++
           (guardAbort st cbA none).2) := by
  intro gs
  induction gs with
  | nil => intro k i hi; exact absurd hi (by simp)
  | cons g rest ih =>
    intro k i hi hbef hf
    cases i with
    | zero =>
      have hg : g st.current st.pending = .fals := hf
      rcases habort : guardAbort st cbA none with ⟨st1, es⟩
      simp [runGuards, hg, habort, List.range_succ]
    | succ i' =>
      have hg0 := hbef 0 (by simp) (by omega)
      have hi' : i' < rest.length := by simpa using hi
      have hbef' : ∀ j (hj : j < rest.length), j < i' →
          rest.get ⟨j, hj⟩ st.current st.pending = .undef ∨
          rest.get ⟨j, hj⟩ st.current st.pending = .nullv := by
        intro j hj hji
        have := hbef (j + 1) (by simpa using Nat.succ_lt_succ hj) (by omega)
        simpa using this
      have hf' : rest.get ⟨i', hi'⟩ st.current st.pending = .fals := by
        simpa using hf
      have hrec := ih (k + 1) i' hi' hbef' hf'
      have hfun : ((fun j => Effect.guardInvoked (k + j)) ∘ Nat.succ) =
          (fun j => Effect.guardInvoked (k + 1 + j)) := by
        funext j
        exact congrArg Effect.guardInvoked (by omega)
      have hmap : (List.range (i' + 1 + 1)).map (fun j => Effect.guardInvoked (k + j)) =
          Effect.guardInvoked k ::
            (List.range (i' + 1)).map (fun j => Effect.guardInvoked (k + 1 + j)) := by
        rw [List.range_succ_eq_map, List.map_cons, List.map_map, hfun]
        simp
      have hg0g : g st.current st.pending = .undef ∨ g st.current st.pending = .nullv := hg0
      rcases hg0g with hg0g | hg0g <;>
        simp only [runGuards, hg0g, hrec, hmap] <;> simp

/-- C4: in any guard chain, when every guard before position `i` continues
(`next()`/`next(null)`) and the guard at position `i` calls `next(false)`,
the run of the guard chain never invokes a guard at a position greater than
`i` and never notifies the navigation-changed listeners. -/
theorem c4_false_stops_chain (pushK : PushK) (st : RouterSt) (cbC cbA : Option Nat)
    (gs : List GuardFn) (i : Nat) (hi : i < gs.length)
    (hbef : ∀ j (hj : j < gs.length), j < i →
        gs.get ⟨j, hj⟩ st.current st.pending = .undef ∨
        gs.get ⟨j, hj⟩ st.current st.pending = .nullv)
    (hf : gs.get ⟨i, hi⟩ st.current st.pending = .fals) :
    (∀ j, i < j → Effect.guardInvoked j ∉ (runGuards pushK st 0 gs cbC cbA).2) ∧
    (∀ a b, Effect.navChanged a b ∉ (runGuards pushK st 0 gs cbC cbA).2) := by
  have h := runGuards_false_aborts pushK st cbC cbA gs 0 i hi hbef hf
  rw [h]
  constructor
  · intro j hj hmem
    rcases List.mem_append.mp hmem with hmem | hmem
    · rcases List.mem_map.mp hmem with ⟨j', hj', heq⟩
      have : j' = j := by
        have := congrArg (fun e => match e with | Effect.guardInvoked x => x | _ => 0) heq
        simpa using this
      rw [List.mem_range] at hj'
      omega
    · exact guardInvoked_not_in_guardAbort st cbA none j hmem
  · intro a b hmem
    rcases List.mem_append.mp hmem with hmem | hmem
    · rcases List.mem_map.mp hmem with ⟨j', -, heq⟩
      exact absurd heq (by simp)
    · exact navChanged_not_in_guardAbort st cbA none a b hmem

def nullPushK : PushK := fun _ _ _ s => (s, [])

def witnessGuards : List GuardFn :=
  [fun _ _ => .undef, fun _ _ => .fals, fun _ _ => .undef]

theorem c4_false_stops_chain_witness :
    (1 < witnessGuards.length ∧
      witnessGuards.get ⟨1, by simp [witnessGuards]⟩ none none = .fals) ∧
    ((∀ j, 1 < j →
        Effect.guardInvoked j ∉ (runGuards nullPushK demoStart 0 witnessGuards (some 1) (some 2)).2) ∧
     (∀ a b,
        Effect.navChanged a b ∉ (runGuards nullPushK demoStart 0 witnessGuards (some 1) (some 2)).2)) := by
  refine ⟨⟨by simp [witnessGuards], rfl⟩, ?_⟩
  exact c4_false_stops_chain nullPushK demoStart (some 1) (some 2) witnessGuards 1
    (by simp [witnessGuards])
    (by
      intro j hj hj1
      match j with
      | 0 => exact Or.inl rfl
      | j + 1 => omega)
    rfl

theorem stripBase_name (rt : Router) (l : Location) : (stripBase rt l).name = l.name := by
  unfold stripBase; split <;> rfl

theorem stripBase_action (rt : Router) (l : Location) : (stripBase rt l).action = l.action := by
  unfold stripBase; split <;> rfl

theorem createLocation_action (raw : RawLocation) (loc : Location)
    (h : createLocation raw = .ok loc) :
    loc.action = (if raw.replace then HistoryAction.replace else HistoryAction.push) := by
  simp only [createLocation] at h
  split at h
  · injection h with h2
    rw [← h2]
  · split at h
    · exact Except.noConfusion h
    · injection h with h2
      rw [← h2]

theorem createRoute_action (l : Location) (ms : List Record) :
    (createRoute l ms).action = l.action := rfl

theorem resolveRoute_same_fullpath_noop (sem : PatternSem) (rt : Router)
    (pushK : PushK) (st : RouterSt) (location : Location) (cbC cbA : Option Nat)
    (ms : List Record) (cur : Route)
    (hname : location.name = none)
    (hmatch : matchRoute sem (stripBase rt location).path rt.routes [] = (true, ms))
    (hredir : (createRoute (stripBase rt location) ms).redirect = none)
    (hcur : st.current = some cur)
    (hfp : (createRoute (stripBase rt location) ms).fullPath = cur.fullPath) :
    resolveRoute sem rt pushK st location cbC cbA =
      ({ st with pending := none }, completeE cbC) := by
  have hn : (stripBase rt location).name = none := (stripBase_name rt location).trans hname
  unfold resolveRoute
  simp only [hn, Option.getD_none, List.length_nil, gt_iff_lt, Nat.lt_irrefl, if_false,
    hmatch, hredir, hcur, hfp, beq_self_eq_true, if_true]

def isCompleteE : Effect → Bool
  | .complete _ => true
  | _ => false

def isNavChangedE : Effect → Bool
  | .navChanged _ _ => true
  | _ => false

theorem push_commit_from_idle (sem : PatternSem) (rt : Router) (fuel : Nat)
    (st : RouterSt) (raw : RawLocation) (location : Location) (ms : List Record)
    (n : Nat) (cbA : Option Nat)
    (hguards : rt.guards = [])
    (hloc : createLocation { raw with replace := false } = .ok location)
    (hname : location.name = none)
    (hmatch : matchRoute sem (stripBase rt location).path rt.routes [] = (true, ms))
    (hredir : (createRoute (stripBase rt location) ms).redirect = none)
    (hcur : st.current = none) :
    routerPush sem rt fuel st raw (some n) cbA =
      ({ current := some (createRoute (stripBase rt location) ms), pending := none,
         historyLoc :=
           if st.historyLoc == (createRoute (stripBase rt location) ms).fullPath
           then st.historyLoc else (createRoute (stripBase rt location) ms).fullPath },
       Effect.beforeNav none (some (createRoute (stripBase rt location) ms).fullPath) ::
         Effect.navChanged none (some (createRoute (stripBase rt location) ms).fullPath) ::
         ((if st.historyLoc == (createRoute (stripBase rt location) ms).fullPath
           then [] else [Effect.historyPush (createRoute (stripBase rt location) ms).fullPath]) ++
          [Effect.complete n])) := by
  have hn : (stripBase rt location).name = none := (stripBase_name rt location).trans hname
  have hact : (createRoute (stripBase rt location) ms).action = HistoryAction.push := by
    rw [createRoute_action, stripBase_action, createLocation_action _ _ hloc]
    rfl
  unfold routerPush routerCycle
  rw [hloc]
  unfold resolveRoute
  simp only [hn, Option.getD_none, List.length_nil, gt_iff_lt, Nat.lt_irrefl, if_false,
    hmatch, hredir, hcur, hguards, Option.map_none]
  unfold runGuards finishNavigationChange
  simp only [hact, completeE]
  by_cases hh : st.historyLoc == (createRoute (stripBase rt location) ms).fullPath
  · simp [hh]
  · simp [hh]

/-- C3: a push or replace whose pending route resolves without a redirect to
the current route's full path is a no-op success — the pending route is
cleared, only the completion callback fires, no before-navigation or
navigation-changed listener is notified, the state (including the external
history) is untouched; consequently pushing the same resolved full path
twice from an idle router invokes the completion callback twice and fires
navigation-changed exactly once. -/
theorem c3_same_location_noop_and_idempotent :
    (∀ (sem : PatternSem) (rt : Router) (pushK : PushK) (st : RouterSt)
        (location : Location) (cbC cbA : Option Nat) (ms : List Record) (cur : Route),
        location.name = none →
        matchRoute sem (stripBase rt location).path rt.routes [] = (true, ms) →
        (createRoute (stripBase rt location) ms).redirect = none →
        st.current = some cur →
        (createRoute (stripBase rt location) ms).fullPath = cur.fullPath →
        resolveRoute sem rt pushK st location cbC cbA =
          ({ st with pending := none }, completeE cbC)) ∧
    (∀ (sem : PatternSem) (rt : Router) (fuel : Nat) (st : RouterSt)
        (raw : RawLocation) (location : Location) (ms : List Record) (n : Nat)
        (cbA : Option Nat),
        rt.guards = [] →
        createLocation { raw with replace := false } = .ok location →
        location.name = none →
        matchRoute sem (stripBase rt location).path rt.routes [] = (true, ms) →
        (createRoute (stripBase rt location) ms).redirect = none →
        st.current = none →
        ((routerPush sem rt fuel st raw (some n) cbA).2 ++
         (routerPush sem rt fuel (routerPush sem rt fuel st raw (some n) cbA).1
            raw (some n) cbA).2).countP isCompleteE = 2 ∧
        ((routerPush sem rt fuel st raw (some n) cbA).2 ++
         (routerPush sem rt fuel (routerPush sem rt fuel st raw (some n) cbA).1
            raw (some n) cbA).2).countP isNavChangedE = 1) := by
  constructor
  · exact fun sem rt pushK st location cbC cbA ms cur h1 h2 h3 h4 h5 =>
      resolveRoute_same_fullpath_noop sem rt pushK st location cbC cbA ms cur h1 h2 h3 h4 h5
  · intro sem rt fuel st raw location ms n cbA hguards hloc hname hmatch hredir hcur
    have key1 := push_commit_from_idle sem rt fuel st raw location ms n cbA
      hguards hloc hname hmatch hredir hcur
    have key2 : routerPush sem rt fuel
        ({ current := some (createRoute (stripBase rt location) ms), pending := none,
           historyLoc :=
             if st.historyLoc == (createRoute (stripBase rt location) ms).fullPath
             then st.historyLoc else (createRoute (stripBase rt location) ms).fullPath })
        raw (some n) cbA =
        ({ current := some (createRoute (stripBase rt location) ms), pending := none,
           historyLoc :=
             if st.historyLoc == (createRoute (stripBase rt location) ms).fullPath
             then st.historyLoc else (createRoute (stripBase rt location) ms).fullPath },
         [Effect.complete n]) := by
      unfold routerPush routerCycle
      rw [hloc]
      have := resolveRoute_same_fullpath_noop sem rt (routerPushLoop sem rt fuel)
        ({ current := some (createRoute (stripBase rt location) ms), pending := none,
           historyLoc :=
             if st.historyLoc == (createRoute (stripBase rt location) ms).fullPath
             then st.historyLoc else (createRoute (stripBase rt location) ms).fullPath })
        location (some n) cbA ms (createRoute (stripBase rt location) ms)
        hname hmatch hredir rfl rfl
      simpa [completeE] using this
    rw [key1, key2]
    by_cases hh : st.historyLoc == (createRoute (stripBase rt location) ms).fullPath <;>
      simp [hh, isCompleteE, isNavChangedE, List.countP_append, List.countP_cons]

def demoIdleRouter : Router := { routes := demoRoutes, basename := [], guards := [] }

def homeLocation : Location :=
  { name := none, path := ['/', 'h', 'o', 'm', 'e'], hash := [], query := [],
    params := [], action := .push }

def homeRecord : Record :=
  { path := ['/', 'h', 'o', 'm', 'e'], redirect := none, name := .null,
    component := .boolean false, meta := .obj, props := .boolean false, params := [] }

theorem c3_same_location_noop_and_idempotent_witness :
    (matchRoute literalSem (stripBase demoIdleRouter homeLocation).path
        demoIdleRouter.routes [] = (true, [homeRecord])) ∧
    (resolveRoute literalSem demoIdleRouter nullPushK
        { current := some (createRoute (stripBase demoIdleRouter homeLocation) [homeRecord]),
          pending := none, historyLoc := ['/'] }
        homeLocation (some 7) (some 8) =
      ({ current := some (createRoute (stripBase demoIdleRouter homeLocation) [homeRecord]),
         pending := none, historyLoc := ['/'] },
       completeE (some 7))) ∧
    (((routerPush literalSem demoIdleRouter 1 demoStart
          (strRawLocation ['/', 'h', 'o', 'm', 'e']) (some 7) (some 8)).2 ++
      (routerPush literalSem demoIdleRouter 1
          (routerPush literalSem demoIdleRouter 1 demoStart
            (strRawLocation ['/', 'h', 'o', 'm', 'e']) (some 7) (some 8)).1
          (strRawLocation ['/', 'h', 'o', 'm', 'e']) (some 7) (some 8)).2).countP
        isCompleteE = 2 ∧
     ((routerPush literalSem demoIdleRouter 1 demoStart
          (strRawLocation ['/', 'h', 'o', 'm', 'e']) (some 7) (some 8)).2 ++
      (routerPush literalSem demoIdleRouter 1
          (routerPush literalSem demoIdleRouter 1 demoStart
            (strRawLocation ['/', 'h', 'o', 'm', 'e']) (some 7) (some 8)).1
          (strRawLocation ['/', 'h', 'o', 'm', 'e']) (some 7) (some 8)).2).countP
        isNavChangedE = 1) := by
  have hmatch : matchRoute literalSem (stripBase demoIdleRouter homeLocation).path
      demoIdleRouter.routes [] = (true, [homeRecord]) := by
    simp [demoRoutes, preprocessRoutes, homePrefab, wildcardPrefab, createRouteConfig,
      prefabPathStr, RouteConfigPrefab.path, RouteConfigPrefab.name, RouteConfigPrefab.component,
      RouteConfigPrefab.meta, RouteConfigPrefab.props, RouteConfigPrefab.redirect,
      RouteConfigPrefab.children, jsIsNullOrUndef, jsIsString, jsIsFunction, jsIsObject,
      jsTruthy, jsOr, patternParamKeys, splitChar, composePath, matchRoute, execMatcher,
      literalSem, RouteConfig.matcher, RouteConfig.path, RouteConfig.children,
      RouteConfig.paramKeys, RouteConfig.redirect, RouteConfig.component, RouteConfig.name,
      RouteConfig.meta, RouteConfig.props, RouteConfig.generator, createRouteRecord,
      hasPrefix, stripBase, demoIdleRouter, homeLocation, homeRecord, trimPrefix]
  have hloc : createLocation
      { strRawLocation ['/', 'h', 'o', 'm', 'e'] with replace := false } = .ok homeLocation := rfl
  refine ⟨hmatch, ?_, ?_⟩
  · exact c3_same_location_noop_and_idempotent.1 literalSem demoIdleRouter nullPushK
      _ homeLocation (some 7) (some 8) [homeRecord]
      (createRoute (stripBase demoIdleRouter homeLocation) [homeRecord])
      rfl hmatch rfl rfl rfl
  · exact c3_same_location_noop_and_idempotent.2 literalSem demoIdleRouter 1 demoStart
      (strRawLocation ['/', 'h', 'o', 'm', 'e']) homeLocation [homeRecord] 7 (some 8)
      rfl hloc rfl hmatch rfl rfl

theorem splitChar_ne_nil (sep : Char) (s : Str) : splitChar sep s ≠ [] := by
  induction s with
  | nil => simp [splitChar]
  | cons c cs ih =>
    rw [splitChar]
    rcases h : splitChar sep cs with _ | ⟨h1, t⟩
    · exact absurd h ih
    · by_cases hc : c = sep <;> simp [hc]

theorem length_splitChar (sep : Char) (s : Str) :
    (splitChar sep s).length = s.count sep + 1 := by
  induction s with
  | nil => simp [splitChar]
  | cons c cs ih =>
    rw [splitChar]
    rcases h : splitChar sep cs with _ | ⟨h1, t⟩
    · exact absurd h (splitChar_ne_nil sep cs)
    · rw [h] at ih
      simp only [List.length_cons] at ih
      by_cases hc : c = sep <;> simp [hc, List.count_cons] <;> omega

theorem headD_splitChar (sep : Char) (s : Str) :
    (splitChar sep s).headD [] = s.takeWhile (fun c => c != sep) := by
  induction s with
  | nil => simp [splitChar]
  | cons c cs ih =>
    rw [splitChar]
    rcases h : splitChar sep cs with _ | ⟨h1, t⟩
    · exact absurd h (splitChar_ne_nil sep cs)
    · rw [h] at ih
      simp only [List.headD_cons] at ih
      by_cases hc : c = sep <;> simp [hc, List.takeWhile_cons, ih]

theorem count_takeWhile_ne (sep : Char) (s : Str) :
    (s.takeWhile (fun c => c != sep)).count sep = 0 := by
  rw [List.count_eq_zero]
  intro hmem
  have := List.mem_takeWhile_imp hmem
  simp at this

theorem takeWhile_ne_of_count_zero (sep : Char) (s : Str) (h : s.count sep = 0) :
    s.takeWhile (fun c => c != sep) = s := by
  induction s with
  | nil => rfl
  | cons c cs ih =>
    rw [List.count_cons] at h
    have hc : (c == sep) = false := by
      by_cases hcc : (c == sep) = true
      · simp [hcc] at h
      · simpa using hcc
    have hcs : cs.count sep = 0 := by
      simp [hc] at h
      exact h
    rw [List.takeWhile_cons]
    have hcne : ¬c = sep := by simpa using hc
    simp [hcne, ih hcs]

theorem parseURL_spec (p : Str) :
    (p.count '#' > 1 ∨ (p.takeWhile (fun c => c != '#')).count '?' > 1 →
      parseURL p = .error "invalid URL") ∧
    (p.count '#' ≤ 1 → (p.takeWhile (fun c => c != '#')).count '?' ≤ 1 →
      ∃ pu, parseURL p = .ok pu ∧
        pu.base.count '?' = 0 ∧ pu.base.count '#' = 0) := by
  by_cases h2 : p.count '#' > 1
  · have hcond : (splitChar '#' p).length > 2 := by rw [length_splitChar]; omega
    constructor
    · intro _
      unfold parseURL
      simp [hcond]
    · intro hle _
      omega
  · have hcond : ¬((splitChar '#' p).length > 2) := by rw [length_splitChar]; omega
    have hph1 : (if ((splitChar '#' p).length == 2) = true then (splitChar '#' p).headD []
        else p) = p.takeWhile (fun c => c != '#') := by
      by_cases he : ((splitChar '#' p).length == 2) = true
      · rw [if_pos he]
        exact headD_splitChar '#' p
      · have hc0 : p.count '#' = 0 := by
          rw [length_splitChar] at he
          simp at he
          omega
        simp [he, takeWhile_ne_of_count_zero _ _ hc0]
    by_cases h3 : (p.takeWhile (fun c => c != '#')).count '?' > 1
    · have hcond2 : (splitChar '?' (p.takeWhile (fun c => c != '#'))).length > 2 := by
        rw [length_splitChar]; omega
      constructor
      · intro _
        unfold parseURL
        simp only [hcond, if_false]
        rw [hph1]
        simp [hcond2]
      · intro _ hle
        omega
    · have hcond2 : ¬((splitChar '?' (p.takeWhile (fun c => c != '#'))).length > 2) := by
        rw [length_splitChar]; omega
      constructor
      · intro hx
        rcases hx with hx | hx
        · omega
        · omega
      · intro _ _
        have hok : parseURL p = .ok
            { base := (splitChar '?' (p.takeWhile (fun c => c != '#'))).headD [],
              query :=
                if (splitChar '?' (p.takeWhile (fun c => c != '#'))).length == 2 then
                  parseQuery ((splitChar '?' (p.takeWhile (fun c => c != '#'))).getD 1 [])
                else [],
              hash :=
                if (splitChar '#' p).length == 2 then (splitChar '#' p).getD 1 []
                else [] } := by
          unfold parseURL
          simp only [hcond, if_false]
          rw [hph1]
          simp only [hcond2, if_false]
        refine ⟨_, hok, ?_, ?_⟩
        · show ((splitChar '?' (p.takeWhile (fun c => c != '#'))).headD []).count '?' = 0
          rw [headD_splitChar]
          exact count_takeWhile_ne '?' _
        · show ((splitChar '?' (p.takeWhile (fun c => c != '#'))).headD []).count '#' = 0
          rw [headD_splitChar]
          have hsub : ((p.takeWhile (fun c => c != '#')).takeWhile (fun c => c != '?')).Sublist
              (p.takeWhile (fun c => c != '#')) := List.takeWhile_sublist _
          have := hsub.count_le '#'
          have h0 : (p.takeWhile (fun c => c != '#')).count '#' = 0 := count_takeWhile_ne '#' p
          omega

/-- C9: for a raw location with a non-empty path, `createLocation` fails
(with an `invalid URL` error) precisely when the path holds more than one
hash separator, or more than one query separator before the first hash
separator (the portion the parser inspects for `?`); every successful
normalization yields a base path free of `?` and `#`. -/
theorem c9_create_location_invalid_url (raw : RawLocation) (p : Str)
    (hp : raw.path = some p) (hne : p ≠ []) :
    ((createLocation raw).toOption = none ↔
      p.count '#' > 1 ∨ (p.takeWhile (fun c => c != '#')).count '?' > 1) ∧
    (∀ e, createLocation raw = .error e → e = "invalid URL, invalid URL") ∧
    (∀ loc, createLocation raw = .ok loc →
      loc.path.count '?' = 0 ∧ loc.path.count '#' = 0) := by
  have hlenp : p.length > 0 := by
    cases p with
    | nil => exact absurd rfl hne
    | cons a l => simp
  obtain ⟨q, hq⟩ : ∃ q : Str, normalizedPath p = q := ⟨_, rfl⟩
  have hq0 : raw.path.getD [] = p := by rw [hp]; rfl
  have hqc : q.count '#' = p.count '#' ∧
      (q.takeWhile (fun c => c != '#')).count '?' =
        (p.takeWhile (fun c => c != '#')).count '?' ∧ q ≠ [] := by
    rw [← hq]
    unfold normalizedPath
    by_cases hpre : ( hasPrefix p ['/']) = true
    · have hcond : (decide (p.length > 0) && !( hasPrefix p ['/'])) = false := by
        simp [hpre]
      rw [if_neg (by simp [hcond])]
      exact ⟨rfl, rfl, hne⟩
    · have hcond : (decide (p.length > 0) && !( hasPrefix p ['/'])) = true := by
        simp [hpre, hlenp]
      rw [if_pos hcond]
      refine ⟨?_, ?_, by simp⟩
      · rw [List.count_cons, show (('/' : Char) == '#') = false from rfl]
        simp
      · rw [List.takeWhile_cons, show (('/' : Char) != '#') = true from rfl]
        simp only [if_true]
        rw [List.count_cons, show (('/' : Char) == '?') = false from rfl]
        simp
  have hne0 : (q.length == 0) = false := by
    cases hq2 : q with
    | nil => exact absurd hq2 hqc.2.2
    | cons a l => simp
  by_cases hbad : p.count '#' > 1 ∨ (p.takeWhile (fun c => c != '#')).count '?' > 1
  · have hbadq : q.count '#' > 1 ∨ (q.takeWhile (fun c => c != '#')).count '?' > 1 := by
      rw [hqc.1, hqc.2.1]; exact hbad
    have herr := (parseURL_spec q).1 hbadq
    have herr2 : createLocation raw = .error ("invalid URL, " ++ "invalid URL") := by
      unfold createLocation
      simp only [hq0]
      rw [hq]
      simp only [hne0, Bool.false_eq_true, if_false]
      rw [herr]
    refine ⟨iff_of_true (by rw [herr2]; rfl) hbad, ?_, ?_⟩
    · intro e he
      rw [herr2] at he
      injection he with h2
      rw [← h2]
      decide
    · intro loc hloc
      rw [herr2] at hloc
      exact Except.noConfusion hloc
  · have hb1 : p.count '#' ≤ 1 := by omega
    have hb2 : (p.takeWhile (fun c => c != '#')).count '?' ≤ 1 := by
      rcases Nat.lt_or_ge 1 ((p.takeWhile (fun c => c != '#')).count '?') with h | h
      · exact absurd (Or.inr h) hbad
      · exact h
    obtain ⟨pu, hok, hc1, hc2⟩ := (parseURL_spec q).2
      (by rw [hqc.1]; exact hb1) (by rw [hqc.2.1]; exact hb2)
    have hok2 : createLocation raw = .ok
        { name := raw.name, path := pu.base,
          hash := if pu.hash.length > 0 then pu.hash
            else (match raw.hash with | some h => replaceFirstChar '#' h | none => []),
          query := objAssign
            (match raw.query with | some qs => objAssign [] qs | none => []) pu.query,
          params := (match raw.params with | some ps => objAssign [] ps | none => []),
          action := if raw.replace then HistoryAction.replace else HistoryAction.push } := by
      unfold createLocation
      simp only [hq0]
      rw [hq]
      simp only [hne0, Bool.false_eq_true, if_false]
      rw [hok]
    refine ⟨iff_of_false (by rw [hok2]; simp [Except.toOption]) hbad, ?_, ?_⟩
    · intro e he
      rw [hok2] at he
      exact Except.noConfusion he
    · intro loc hloc
      rw [hok2] at hloc
      injection hloc with h2
      rw [← h2]
      exact ⟨hc1, hc2⟩

def c9raw : RawLocation := { path := some ['/', 'a', '?', 'x', '=', '1', '#', 'h'] }

theorem c9_create_location_invalid_url_witness :
    (c9raw.path = some ['/', 'a', '?', 'x', '=', '1', '#', 'h'] ∧
      (['/', 'a', '?', 'x', '=', '1', '#', 'h'] : Str) ≠ []) ∧
    (((createLocation c9raw).toOption = none ↔
        (['/', 'a', '?', 'x', '=', '1', '#', 'h'] : Str).count '#' > 1 ∨
          ((['/', 'a', '?', 'x', '=', '1', '#', 'h'] : Str).takeWhile
            (fun c => c != '#')).count '?' > 1) ∧
     (∀ e, createLocation c9raw = .error e → e = "invalid URL, invalid URL") ∧
     (∀ loc, createLocation c9raw = .ok loc →
        loc.path.count '?' = 0 ∧ loc.path.count '#' = 0)) :=
  ⟨⟨rfl, by decide⟩,
    c9_create_location_invalid_url c9raw ['/', 'a', '?', 'x', '=', '1', '#', 'h'] rfl (by decide)⟩

def callerQuery (raw : RawLocation) : QueryMap :=
  match raw.query with
  | some qs => objAssign [] qs
  | none => []

def callerHash (raw : RawLocation) : Str :=
  match raw.hash with
  | some h => replaceFirstChar '#' h
  | none => []

def callerParams (raw : RawLocation) : QueryMap :=
  match raw.params with
  | some ps => objAssign [] ps
  | none => []

theorem createLocation_parse_ok (raw : RawLocation) (p : Str) (pu : ParsedURL)
    (hp : raw.path = some p) (hne : p ≠ [])
    (hok : parseURL (normalizedPath p) = .ok pu) :
    createLocation raw = .ok
      { name := raw.name, path := pu.base,
        hash := if pu.hash.length > 0 then pu.hash else callerHash raw,
        query := objAssign (callerQuery raw) pu.query,
        params := callerParams raw,
        action := if raw.replace then HistoryAction.replace else HistoryAction.push } := by
  have hq0 : raw.path.getD [] = p := by rw [hp]; rfl
  have hne0 : ((normalizedPath p).length == 0) = false := by
    unfold normalizedPath
    by_cases hpre : (decide (p.length > 0) && !( hasPrefix p ['/'])) = true
    · rw [if_pos hpre]; simp
    · rw [if_neg hpre]
      cases p with
      | nil => exact absurd rfl hne
      | cons a l => simp
  unfold createLocation
  simp only [hq0, hne0, Bool.false_eq_true, if_false]
  rw [hok]
  rfl

def KeysNodup (m : QueryMap) : Prop := (m.map Prod.fst).Nodup

theorem objLookup_cons_pos (e : Str × Option Str) (m : QueryMap) (k : Str)
    (h : (e.1 == k) = true) : objLookup (e :: m) k = some e.2 := by
  unfold objLookup
  simp only [List.find?]
  rw [h]
  rfl

theorem objLookup_cons_neg (e : Str × Option Str) (m : QueryMap) (k : Str)
    (h : (e.1 == k) = false) : objLookup (e :: m) k = objLookup m k := by
  unfold objLookup
  simp only [List.find?]
  rw [h]


theorem findP_map_replace (k : Str) (v : Option Str) :
    ∀ m : QueryMap, m.any (fun p => p.1 == k) = true →
      objLookup (m.map (fun p => if p.1 == k then (k, v) else p)) k = some v := by
  intro m
  induction m with
  | nil => intro h; simp at h
  | cons e rest ih =>
    intro h
    rw [List.map_cons]
    by_cases he : (e.1 == k) = true
    · rw [if_pos he, objLookup_cons_pos _ _ _ (by simp)]
    · rw [if_neg he, objLookup_cons_neg _ _ _ (by simpa using he)]
      apply ih
      rw [List.any_cons] at h
      simpa [he] using h


theorem findP_append_new (k : Str) (v : Option Str) :
    ∀ m : QueryMap, m.any (fun p => p.1 == k) = false →
      objLookup (m ++ [(k, v)]) k = some v := by
  intro m
  induction m with
  | nil =>
    intro _
    rw [List.nil_append, objLookup_cons_pos _ _ _ (by simp)]
  | cons e rest ih =>
    intro h
    rw [List.any_cons, Bool.or_eq_false_iff] at h
    rw [List.cons_append, objLookup_cons_neg _ _ _ h.1]
    exact ih h.2

theorem lookup_objInsert_self (m : QueryMap) (k : Str) (v : Option Str) :
    objLookup (objInsert m k v) k = some v := by
  unfold objInsert
  by_cases hany : m.any (fun p => p.1 == k) = true
  · rw [if_pos hany]
    exact findP_map_replace k v m hany
  · rw [if_neg hany]
    exact findP_append_new k v m (Bool.eq_false_iff.mpr hany)

theorem findP_map_replace_ne (k : Str) (v : Option Str) (q : Str)
    (hkq : (k == q) = false) :
    ∀ m : QueryMap,
      objLookup (m.map (fun p => if p.1 == k then (k, v) else p)) q = objLookup m q := by
  intro m
  induction m with
  | nil => rfl
  | cons e rest ih =>
    rw [List.map_cons]
    by_cases he : (e.1 == k) = true
    · have he1 : e.1 = k := eq_of_beq he
      have heq : (e.1 == q) = false := by rw [he1]; exact hkq
      rw [if_pos he, objLookup_cons_neg _ _ _ hkq, objLookup_cons_neg _ _ _ heq]
      exact ih
    · rw [if_neg he]
      by_cases heq : (e.1 == q) = true
      · rw [objLookup_cons_pos _ _ _ heq, objLookup_cons_pos _ _ _ heq]
      · have heq2 : (e.1 == q) = false := by simpa using heq
        rw [objLookup_cons_neg _ _ _ heq2, objLookup_cons_neg _ _ _ heq2]
        exact ih

theorem findP_append_ne (k : Str) (v : Option Str) (q : Str)
    (hkq : (k == q) = false) :
    ∀ m : QueryMap, objLookup (m ++ [(k, v)]) q = objLookup m q := by
  intro m
  induction m with
  | nil =>
    rw [List.nil_append, objLookup_cons_neg _ _ _ hkq]
  | cons e rest ih =>
    rw [List.cons_append]
    by_cases heq : (e.1 == q) = true
    · rw [objLookup_cons_pos _ _ _ heq, objLookup_cons_pos _ _ _ heq]
    · have heq2 : (e.1 == q) = false := by simpa using heq
      rw [objLookup_cons_neg _ _ _ heq2, objLookup_cons_neg _ _ _ heq2]
      exact ih

theorem lookup_objInsert_ne (m : QueryMap) (k : Str) (v : Option Str) (q : Str)
    (hk : q ≠ k) :
    objLookup (objInsert m k v) q = objLookup m q := by
  have hkq : (k == q) = false := by
    refine beq_eq_false_iff_ne.mpr ?_
    exact fun h => hk h.symm
  unfold objInsert
  by_cases hany : m.any (fun p => p.1 == k) = true
  · rw [if_pos hany]
    exact findP_map_replace_ne k v q hkq m
  · rw [if_neg hany]
    exact findP_append_ne k v q hkq m

theorem keysNodup_objInsert (m : QueryMap) (k : Str) (v : Option Str)
    (h : KeysNodup m) : KeysNodup (objInsert m k v) := by
  unfold objInsert
  by_cases hany : m.any (fun p => p.1 == k) = true
  · rw [if_pos hany]
    have hkeys : (m.map (fun p => if p.1 == k then (k, v) else p)).map Prod.fst =
        m.map Prod.fst := by
      rw [List.map_map]
      apply List.map_congr_left
      intro p _
      by_cases hp : (p.1 == k) = true
      · simp only [Function.comp, hp, if_pos]
        exact (eq_of_beq hp).symm
      · simp only [Function.comp, hp, if_neg]
        rfl
    unfold KeysNodup
    rw [hkeys]
    exact h
  · rw [if_neg hany]
    unfold KeysNodup
    rw [List.map_append]
    have hnotin : k ∉ m.map Prod.fst := by
      intro hmem
      rcases List.mem_map.mp hmem with ⟨p, hp, hfst⟩
      have : (p.1 == k) = true := by rw [hfst]; simp
      exact hany (List.any_eq_true.mpr ⟨p, hp, this⟩)
    have h2 : (m.map Prod.fst).Nodup := h
    simp [List.nodup_append, h2, hnotin]

theorem keysNodup_foldl (f : QueryMap → Str → QueryMap)
    (hf : ∀ m e, KeysNodup m → KeysNodup (f m e)) :
    ∀ (l : List Str) (acc : QueryMap), KeysNodup acc → KeysNodup (l.foldl f acc) := by
  intro l
  induction l with
  | nil => intro acc h; exact h
  | cons e rest ih =>
    intro acc h
    exact ih (f acc e) (hf acc e h)

theorem keysNodup_parseQuery (qs : Str) : KeysNodup (parseQuery qs) := by
  unfold parseQuery
  exact keysNodup_foldl _
    (fun m e hm => keysNodup_objInsert m _ _ hm) _ _ (by simp [KeysNodup])

theorem parseURL_query_nodup (p : Str) (pu : ParsedURL)
    (h : parseURL p = .ok pu) : KeysNodup pu.query := by
  simp only [parseURL] at h
  split at h
  · exact Except.noConfusion h
  · split at h <;> split at h
    all_goals
      first
        | exact Except.noConfusion h
        | (injection h with h2
           rw [← h2]
           dsimp only
           split
           · exact keysNodup_parseQuery _
           · simp [KeysNodup])

theorem lookup_objAssign (src : QueryMap) (hnd : KeysNodup src) :
    ∀ (m : QueryMap) (k : Str),
      objLookup (objAssign m src) k =
        match objLookup src k with
        | some v => some v
        | none => objLookup m k := by
  induction src with
  | nil => intro m k; simp [objAssign, objLookup]
  | cons e rest ih =>
    intro m k
    have hnd' : KeysNodup rest := by
      unfold KeysNodup at hnd ⊢
      rw [List.map_cons] at hnd
      exact hnd.of_cons
    have hnotin : e.1 ∉ rest.map Prod.fst := by
      unfold KeysNodup at hnd
      rw [List.map_cons] at hnd
      exact (List.nodup_cons.mp hnd).1
    have hstep : objAssign m (e :: rest) = objAssign (objInsert m e.1 e.2) rest := rfl
    rw [hstep, ih hnd']
    by_cases hk : k = e.1
    · subst hk
      have hrest : objLookup rest e.1 = none := by
        unfold objLookup
        rw [List.find?_eq_none.mpr]
        · rfl
        · intro p hp hpk
          exact hnotin (List.mem_map.mpr ⟨p, hp, eq_of_beq hpk⟩)
      rw [hrest, objLookup_cons_pos _ _ _ (by simp), lookup_objInsert_self]
    · have hsrc : objLookup (e :: rest) k = objLookup rest k := by
        apply objLookup_cons_neg
        refine beq_eq_false_iff_ne.mpr ?_
        exact fun h => hk h.symm
      rw [hsrc, lookup_objInsert_ne m e.1 e.2 k hk]

def c2raw : RawLocation :=
  { path := some ['/', 'p', '?', 'a', '=', '2', '#', 'h', '2'],
    query := some [(['a'], some ['1'])],
    hash := some ['h', '1'] }

/-- C2 (refutation): with caller query `{a: '1'}` and caller hash `h1`, a
path embedding `?a=2#h2` yields a location whose query holds the parsed
value `2` for `a` (the caller entry was overwritten) and whose hash is the
parsed fragment `h2` (the caller hash was replaced). -/
theorem c2_parsed_overwrites_counterexample :
    (createLocation c2raw).toOption.map
        (fun loc => (objLookup loc.query ['a'], loc.hash)) =
      some (some (some ['2']), ['h', '2']) ∧
    (createLocation c2raw).toOption.map
        (fun loc => (objLookup loc.query ['a'], loc.hash)) ≠
      some (some (some ['1']), ['h', '1']) := by decide

/-- C2 (amended): `createLocation` parses the embedded query string and hash
fragment out of the path and merges the parsed query entries into the
caller-provided query map with the parsed entries taking precedence — a key
present in the parsed query resolves to its parsed value, any other key to
its caller-provided value — and the hash is taken from the parsed fragment
whenever the fragment is non-empty (overwriting any caller-supplied hash),
falling back to the caller hash only for an empty fragment. -/
theorem c2_amended_parsed_query_precedence (raw : RawLocation) (p : Str)
    (pu : ParsedURL) (loc : Location)
    (hp : raw.path = some p) (hne : p ≠ [])
    (hok : parseURL (normalizedPath p) = .ok pu)
    (hloc : createLocation raw = .ok loc) :
    loc.path = pu.base ∧
    (∀ k, (objLookup pu.query k).isSome = true →
      objLookup loc.query k = objLookup pu.query k) ∧
    (∀ k, objLookup pu.query k = none →
      objLookup loc.query k = objLookup (callerQuery raw) k) ∧
    loc.hash = (if pu.hash.length > 0 then pu.hash else callerHash raw) := by
  have hred := createLocation_parse_ok raw p pu hp hne hok
  rw [hred] at hloc
  injection hloc with h2
  rw [← h2]
  have hnd := parseURL_query_nodup (normalizedPath p) pu hok
  refine ⟨rfl, ?_, ?_, rfl⟩
  · intro k hk
    show objLookup (objAssign (callerQuery raw) pu.query) k = objLookup pu.query k
    rw [lookup_objAssign pu.query hnd]
    cases hv : objLookup pu.query k with
    | none => rw [hv] at hk; exact absurd hk (by simp)
    | some v => rfl
  · intro k hk
    show objLookup (objAssign (callerQuery raw) pu.query) k =
      objLookup (callerQuery raw) k
    rw [lookup_objAssign pu.query hnd, hk]

def c2parsed : ParsedURL :=
  { base := ['/', 'p'], query := [(['a'], some ['2'])], hash := ['h', '2'] }

def c2loc : Location :=
  { name := none, path := ['/', 'p'], hash := ['h', '2'],
    query := [(['a'], some ['2'])], params := [], action := .push }

theorem c2_amended_parsed_query_precedence_witness :
    (c2raw.path = some ['/', 'p', '?', 'a', '=', '2', '#', 'h', '2'] ∧
     parseURL (normalizedPath ['/', 'p', '?', 'a', '=', '2', '#', 'h', '2']) = .ok c2parsed ∧
     createLocation c2raw = .ok c2loc) ∧
    (c2loc.path = c2parsed.base ∧
     (∀ k, (objLookup c2parsed.query k).isSome = true →
        objLookup c2loc.query k = objLookup c2parsed.query k) ∧
     (∀ k, objLookup c2parsed.query k = none →
        objLookup c2loc.query k = objLookup (callerQuery c2raw) k) ∧
     c2loc.hash = (if c2parsed.hash.length > 0 then c2parsed.hash else callerHash c2raw)) :=
  ⟨⟨rfl, rfl, rfl⟩,
    c2_amended_parsed_query_precedence c2raw
      ['/', 'p', '?', 'a', '=', '2', '#', 'h', '2'] c2parsed c2loc
      rfl (by decide) rfl rfl⟩

/-- Tree of compiled (or specified) route paths. -/
inductive PathTree where
  | node (path : Str) (children : List PathTree)

/-- Paths of a compiled config forest, keeping the tree structure. -/
def configPathForest : List RouteConfig → List PathTree
  | [] => []
  | RouteConfig.mk p rd c n m pr children mt g pk :: rest =>
    PathTree.node p (configPathForest children) :: configPathForest rest
termination_by rs => sizeOf rs
decreasing_by all_goals simp_wf <;> omega

/-- The specification's path-composition rule, folded along a chain of
declared paths from the root: each non-empty declared suffix is joined onto
the accumulated path, an empty one inherits it verbatim. -/
def chainPath : List Str → Str
  | [] => []
  | d :: ds => ds.foldl (fun acc e => if e.length > 0 then joinPath acc e else acc) d

/-- Expected path forest of a prefab forest according to the specification:
every node's path is the join of all its ancestors' declared suffixes. -/
def specPathForest (anc : List Str) : List RouteConfigPrefab → List PathTree
  | [] => []
  | RouteConfigPrefab.mk p n c m pr rd children :: rest =>
    PathTree.node (chainPath (anc ++ [prefabPathStr (.mk p n c m pr rd children)]))
        (specPathForest (anc ++ [prefabPathStr (.mk p n c m pr rd children)]) children) ::
      specPathForest anc rest
termination_by ps => sizeOf ps
decreasing_by all_goals simp_wf <;> omega

/-- Validity of a route prefab forest (specification §3): every node passes
`createRouteConfig`, every root declares the wildcard or an absolute path,
and a wildcard node is terminal. -/
def validForest : Bool → List RouteConfigPrefab → Bool
  | _, [] => true
  | isRoot, RouteConfigPrefab.mk p n c m pr rd children :: rest =>
    (match createRouteConfig (.mk p n c m pr rd children) with
     | .ok _ => true
     | .error _ => false) &&
    (if isRoot then
      (prefabPathStr (.mk p n c m pr rd children) == ['*']) ||
        hasPrefix (prefabPathStr (.mk p n c m pr rd children)) ['/']
     else true) &&
    (if prefabPathStr (.mk p n c m pr rd children) == ['*'] then
      children.length == 0
     else true) &&
    validForest false children && validForest isRoot rest
termination_by _ ps => sizeOf ps
decreasing_by all_goals simp_wf <;> omega

theorem createRouteConfig_path (q : RouteConfigPrefab) (core : RouteConfigCore)
    (h : createRouteConfig q = .ok core) : core.path = prefabPathStr q := by
  unfold createRouteConfig at h
  split at h
  · exact Except.noConfusion h
  · split at h
    · exact Except.noConfusion h
    · split at h
      · exact Except.noConfusion h
      · split at h
        · exact Except.noConfusion h
        · split at h
          · exact Except.noConfusion h
          · injection h with h2
            rw [← h2]

theorem joinPath_eq_append (a b : Str) : ∃ t, joinPath a b = a ++ t := by
  unfold joinPath
  by_cases h1 : ( hasSuffix a ['/'] && hasPrefix b ['/']) = true
  · rw [if_pos h1]
    exact ⟨_, rfl⟩
  · rw [if_neg h1]
    by_cases h2 : (!( hasSuffix a ['/']) && !( hasPrefix b ['/'])) = true
    · rw [if_pos h2]
      exact ⟨'/' :: b, by rw [List.append_assoc]; rfl⟩
    · rw [if_neg h2]
      exact ⟨_, rfl⟩

theorem hasPrefix_iff (s p : Str) :
    hasPrefix s p = true ↔
      p ≠ [] ∧ s ≠ [] ∧ p.length ≤ s.length ∧ s.take p.length = p := by
  unfold hasPrefix
  constructor
  · intro h
    by_cases h1 : (p.length == 0 || s.length == 0) = true
    · rw [if_pos h1] at h
      exact absurd h (by simp)
    · rw [if_neg h1] at h
      simp only [Bool.or_eq_true, beq_iff_eq, not_or] at h1
      by_cases h2 : p.length ≤ s.length
      · rw [if_pos h2] at h
        by_cases h3 : (s.take p.length == p) = true
        · refine ⟨?_, ?_, h2, eq_of_beq h3⟩
          · intro hc
            exact h1.1 (by simp [hc])
          · intro hc
            exact h1.2 (by simp [hc])
        · rw [if_neg h3] at h
          exact absurd h (by simp)
      · rw [if_neg h2] at h
        exact absurd h (by simp)
  · rintro ⟨hp, hs, hle, htake⟩
    have h1 : (p.length == 0 || s.length == 0) = false := by
      simp [List.length_eq_zero, hp, hs]
    rw [h1]
    simp only [Bool.false_eq_true, if_false]
    rw [if_pos hle, if_pos (by simp [htake])]

theorem hasPrefix_append (a t p : Str) (h : hasPrefix a p = true) :
    hasPrefix (a ++ t) p = true := by
  obtain ⟨hp, ha, hle, htake⟩ := (hasPrefix_iff a p).mp h
  refine (hasPrefix_iff (a ++ t) p).mpr ⟨hp, ?_, ?_, ?_⟩
  · simp [ha]
  · rw [List.length_append]; omega
  · rw [List.take_append_of_le_length hle]
    exact htake

theorem hasPrefix_joinPath (a b : Str) (h : hasPrefix a ['/'] = true) :
    hasPrefix (joinPath a b) ['/'] = true := by
  obtain ⟨t, ht⟩ := joinPath_eq_append a b
  rw [ht]
  exact hasPrefix_append a t ['/'] h

theorem hasPrefix_ne_nil (s p : Str) (h : hasPrefix s p = true) : s ≠ [] :=
  ((hasPrefix_iff s p).mp h).2.1

theorem chainPath_snoc (anc : List Str) (d : Str) (h : anc ≠ []) :
    chainPath (anc ++ [d]) =
      (if d.length > 0 then joinPath (chainPath anc) d else chainPath anc) := by
  cases anc with
  | nil => exact absurd rfl h
  | cons a0 as =>
    show chainPath (a0 :: (as ++ [d])) = _
    unfold chainPath
    dsimp only
    rw [List.foldl_append]
    rfl

theorem c7_aux : ∀ (nn : Nat) (ps : List RouteConfigPrefab), sizeOf ps ≤ nn →
    ∀ (isRoot : Bool) (anc : List Str) (parentPath : Option Str),
      validForest isRoot ps = true →
      (isRoot = true → anc = [] ∧ parentPath = none) →
      (isRoot = false → anc ≠ [] ∧ parentPath = some (chainPath anc) ∧
        hasPrefix (chainPath anc) ['/'] = true) →
      configPathForest (preprocessRoutes parentPath ps).1 = specPathForest anc ps ∧
      ∀ c ∈ flattenConfigs (preprocessRoutes parentPath ps).1,
        c.path = ['*'] ∨ hasPrefix c.path ['/'] = true := by
  intro nn
  induction nn with
  | zero =>
    intro ps hsz isRoot anc parentPath hv h1 h2
    cases ps with
    | nil =>
      constructor
      · simp [preprocessRoutes, configPathForest, specPathForest]
      · intro cfg hc
        simp [preprocessRoutes, flattenConfigs] at hc
    | cons q rest =>
      exfalso
      cases q with
      | mk p n c m pr rd children => simp at hsz
  | succ nn ih =>
    intro ps hsz isRoot anc parentPath hv h1 h2
    cases ps with
    | nil =>
      constructor
      · simp [preprocessRoutes, configPathForest, specPathForest]
      · intro cfg hc
        simp [preprocessRoutes, flattenConfigs] at hc
    | cons q rest =>
      cases q with
      | mk p n c m pr rd children =>
        have hszr : sizeOf rest ≤ nn := by simp at hsz; omega
        have hszc : sizeOf children ≤ nn := by simp at hsz; omega
        rw [validForest] at hv
        cases hcc : createRouteConfig (.mk p n c m pr rd children) with
        | error e =>
          rw [hcc] at hv
          simp at hv
        | ok core =>
          rw [hcc] at hv
          simp only [Bool.and_eq_true] at hv
          obtain ⟨⟨⟨⟨-, hroot⟩, hwild⟩, hvch⟩, hvrest⟩ := hv
          have hcp : core.path = prefabPathStr (.mk p n c m pr rd children) :=
            createRouteConfig_path _ _ hcc
          have hpath : composePath parentPath core.path =
              chainPath (anc ++ [prefabPathStr (.mk p n c m pr rd children)]) := by
            cases hroot1 : isRoot with
            | true =>
              obtain ⟨ha, hpp⟩ := h1 hroot1
              subst ha
              rw [hpp]
              unfold composePath
              rw [hcp]
              rfl
            | false =>
              obtain ⟨ha, hpp, hsl⟩ := h2 hroot1
              rw [hpp]
              unfold composePath
              rw [hcp, chainPath_snoc anc _ ha]
          have hslash :
              chainPath (anc ++ [prefabPathStr (.mk p n c m pr rd children)]) = ['*'] ∨
              hasPrefix
                (chainPath (anc ++ [prefabPathStr (.mk p n c m pr rd children)]))
                ['/'] = true := by
            cases hroot1 : isRoot with
            | true =>
              obtain ⟨ha, hpp⟩ := h1 hroot1
              subst ha
              rw [hroot1] at hroot
              simp only [if_true, Bool.or_eq_true] at hroot
              rcases hroot with hstar | hpre
              · exact Or.inl (by simpa [chainPath] using eq_of_beq hstar)
              · exact Or.inr (by simpa [chainPath] using hpre)
            | false =>
              obtain ⟨ha, hpp, hsl⟩ := h2 hroot1
              rw [chainPath_snoc anc _ ha]
              by_cases hd : (prefabPathStr (.mk p n c m pr rd children)).length > 0
              · rw [if_pos hd]
                exact Or.inr (hasPrefix_joinPath _ _ hsl)
              · rw [if_neg hd]
                exact Or.inr hsl
          have hslash2 :
              hasPrefix
                (chainPath (anc ++ [prefabPathStr (.mk p n c m pr rd children)]))
                ['/'] = true ∨
              (prefabPathStr (.mk p n c m pr rd children) == ['*']) = true := by
            cases hroot1 : isRoot with
            | true =>
              obtain ⟨ha, hpp⟩ := h1 hroot1
              subst ha
              rw [hroot1] at hroot
              simp only [if_true, Bool.or_eq_true] at hroot
              rcases hroot with hstar | hpre
              · exact Or.inr hstar
              · exact Or.inl (by simpa [chainPath] using hpre)
            | false =>
              obtain ⟨ha, hpp, hsl⟩ := h2 hroot1
              rw [chainPath_snoc anc _ ha]
              by_cases hd : (prefabPathStr (.mk p n c m pr rd children)).length > 0
              · rw [if_pos hd]
                exact Or.inl (hasPrefix_joinPath _ _ hsl)
              · rw [if_neg hd]
                exact Or.inl hsl
          have hchildren :
              configPathForest
                  (preprocessRoutes (some (composePath parentPath core.path)) children).1 =
                specPathForest
                  (anc ++ [prefabPathStr (.mk p n c m pr rd children)]) children ∧
              ∀ cfg ∈ flattenConfigs
                  (preprocessRoutes (some (composePath parentPath core.path)) children).1,
                cfg.path = ['*'] ∨ hasPrefix cfg.path ['/'] = true := by
            by_cases hdw : (prefabPathStr (.mk p n c m pr rd children) == ['*']) = true
            · rw [hdw] at hwild
              simp only [if_true] at hwild
              have : children = [] := List.length_eq_zero.mp (by simpa using hwild)
              subst this
              constructor
              · simp [preprocessRoutes, configPathForest, specPathForest]
              · intro cfg hc
                simp [preprocessRoutes, flattenConfigs] at hc
            · have hsl2 : hasPrefix
                  (chainPath (anc ++ [prefabPathStr (.mk p n c m pr rd children)]))
                  ['/'] = true := by
                rcases hslash2 with h | h
                · exact h
                · exact absurd h hdw
              have := ih children hszc false
                (anc ++ [prefabPathStr (.mk p n c m pr rd children)])
                (some (composePath parentPath core.path)) hvch
                (by intro hx; exact absurd hx (by simp))
                (by
                  intro _
                  refine ⟨by simp, by rw [hpath], hsl2⟩)
              exact this
          have hrest := ih rest hszr isRoot anc parentPath hvrest h1 h2
          rcases hch : preprocessRoutes (some (composePath parentPath core.path)) children
            with ⟨ccs, ces⟩
          rcases hrt : preprocessRoutes parentPath rest with ⟨cs, es⟩
          rw [hch] at hchildren
          rw [hrt] at hrest
          constructor
          · rw [preprocessRoutes, hcc]
            simp only [hch, hrt]
            rw [configPathForest, specPathForest]
            exact List.cons_eq_cons.mpr
              ⟨by rw [hpath, hchildren.1], hrest.1⟩
          · intro cfg hc
            rw [preprocessRoutes, hcc] at hc
            simp only [hch, hrt] at hc
            rw [flattenConfigs] at hc
            rcases List.mem_cons.mp hc with hc | hc
            · subst hc
              show composePath parentPath core.path = ['*'] ∨
                hasPrefix (composePath parentPath core.path) ['/'] = true
              rw [hpath]
              exact hslash
            · rcases List.mem_append.mp hc with hc | hc
              · exact hchildren.2 cfg (by simpa [RouteConfig.children] using hc)
              · exact hrest.2 cfg hc

/-- C7: over valid route prefab forests (every node passes validation, roots
declare the wildcard or an absolute path, wildcard nodes are terminal),
preprocessing compiles every node's path to exactly the join of all its
ancestors' declared path suffixes (an empty declared path inheriting the
parent's compiled path verbatim), and every compiled path is slash-prefixed
except the literal wildcard. -/
theorem c7_compiled_path_composition (ps : List RouteConfigPrefab)
    (hv : validForest true ps = true) :
    configPathForest (preprocessRoutes none ps).1 = specPathForest [] ps ∧
    ∀ c ∈ flattenConfigs (preprocessRoutes none ps).1,
      c.path = ['*'] ∨ hasPrefix c.path ['/'] = true :=
  c7_aux (sizeOf ps) ps le_rfl true [] none hv (fun _ => ⟨rfl, rfl⟩)
    (fun hx => absurd hx (by simp))

def nestedPrefab : RouteConfigPrefab :=
  .mk (.str ['/', 'a']) .undef .undef .undef .undef .undef
    [.mk (.str []) .undef .undef .undef .undef .undef [],
     .mk (.str ['/', 'b']) .undef .undef .undef .undef .undef []]

theorem c7_compiled_path_composition_witness :
    validForest true [nestedPrefab, wildcardPrefab] = true ∧
    (configPathForest (preprocessRoutes none [nestedPrefab, wildcardPrefab]).1 =
        specPathForest [] [nestedPrefab, wildcardPrefab] ∧
     ∀ c ∈ flattenConfigs (preprocessRoutes none [nestedPrefab, wildcardPrefab]).1,
        c.path = ['*'] ∨ hasPrefix c.path ['/'] = true) := by
  have hv : validForest true [nestedPrefab, wildcardPrefab] = true := by
    simp [validForest, nestedPrefab, wildcardPrefab, createRouteConfig, prefabPathStr,
      RouteConfigPrefab.path, RouteConfigPrefab.name, RouteConfigPrefab.component,
      RouteConfigPrefab.meta, RouteConfigPrefab.props, RouteConfigPrefab.redirect,
      RouteConfigPrefab.children, jsIsNullOrUndef, jsIsString, jsIsFunction, jsIsObject,
      jsTruthy, jsOr, hasPrefix]
  exact ⟨hv, c7_compiled_path_composition [nestedPrefab, wildcardPrefab] hv⟩
